import Mathlib

/-!
# A model of the concurrent load generator in `main.go`

The program is one `main` function.  After flag parsing and the two start-up
checks it starts a signal goroutine, `*workers` worker goroutines and then
runs the reporter loop in the main goroutine.  All of them share

* `count`        (an `int64` moved only by `atomic.AddInt64(&count, 1)`),
* `statusCodes`  (a `map[int]int64` moved only by `statusCodes[c]++` under
                  `statusMutex`),
* `ctx`          (cancelled only by `cancel()`),
* `wg`           (the `sync.WaitGroup`).

The model is a small-step interleaving semantics: one step of `step` is one
goroutine executing up to its next access to shared state.  Everything the
code leaves to the scheduler, the runtime or the network is an input of the
step: which goroutine moves (`Action`), which ready case a `select` takes,
whether `http.NewRequest` and `client.Do` fail and which status comes back
(`Env`).  What a step prints or does on the network is returned as a list of
`Event`s, so the state holds program variables only.

Both counters start at zero and move by `+1` only, so they are natural
numbers here; status codes are Go `int`s and are never computed with.
-/

namespace LoadGen

/-! ## The status map -/

/-- The histogram `statusCodes : map[int]int64` (line 46) as an association
list with at most one entry per key. -/
abbrev Hist := List (Int × Nat)

/-- Map read `statusCodes[c]` with presence: `none` when the key is absent. -/
def Hist.get : Hist → Int → Option Nat
  | [], _ => none
  | (k, v) :: t, c => if k = c then some v else Hist.get t c

/-- The update `statusCodes[c]++` of line 123: a missing key reads as zero and
is created. -/
def recordStatus : Hist → Int → Hist
  | [], c => [(c, 1)]
  | (k, v) :: t, c => if k = c then (k, v + 1) :: t else (k, v) :: recordStatus t c

/-- Sum of all the counts of the histogram. -/
def histSum : Hist → Nat
  | [] => 0
  | (_, v) :: t => v + histSum t

/-! ## Start-up (lines 20-41) -/

/-- The parsed command-line flags (lines 20-27); durations are nanoseconds. -/
structure Flags where
  workers : Int
  baseURL : String
  apiKey : String
  model : String
  interval : Int
  promptFile : String
  timeout : Int
deriving DecidableEq

/-- What the start-up code prints before leaving. -/
inductive StartupOut
  | keyRequired
  | usage
  | readError (err : String)
deriving DecidableEq

/-! ## Goroutine states -/

/-- Control point of a worker goroutine (lines 73-129). -/
inductive WorkerPc
  | top                   -- line 82, before the check of lines 83-93
  | build                 -- lines 95-116, past the check
  | send                  -- line 118, the request is built
  | record (code : Int)   -- lines 122-125, a response is in hand
  | count                 -- line 127
  | exited                -- the goroutine function has returned
deriving DecidableEq

/-- A worker goroutine: its control point and the one-slot buffer of its
`ticker.C` (always empty when `ticker` is nil). -/
structure Worker where
  pc : WorkerPc
  tick : Bool
deriving DecidableEq

/-- Control point of the main goroutine from line 71 on. -/
inductive MainPc
  | spawn (i : Nat)   -- lines 71-130, loop variable `i`
  | poll              -- line 136, the `select` of the reporter loop
  | wait              -- line 138, `wg.Wait()`
  | total             -- line 139
  | hist              -- lines 140-145
  | returned          -- line 146 and the deferred calls
deriving DecidableEq

/-- The shared variables and the goroutines of a run. -/
structure State where
  count : Nat               -- `count`, line 43
  statusCodes : Hist        -- `statusCodes`, line 46
  cancelled : Bool          -- `ctx` is done
  sigs : Bool               -- the one-slot channel `sigs` holds a signal
  handled : Bool            -- the signal goroutine of lines 56-60 has run
  wg : Int                  -- counter of `wg`
  workers : List Worker     -- the started workers, `workerID` is the index
  main : MainPc
  ticker : Bool             -- `ticker.C` of line 133 holds a tick
deriving DecidableEq

/-- The state after line 66: nothing counted, context live, signal goroutine
waiting, no worker started yet. -/
def initState : State :=
  { count := 0, statusCodes := [], cancelled := false, sigs := false,
    handled := false, wg := 0, workers := [], main := .spawn 0, ticker := false }

/-- Result of lines 20-66: the process has left with a code, or the run
begins with the trimmed prompt. -/
inductive Proc
  | exited (code : Nat) (out : List StartupOut)
  | running (prompt : String) (s : State)
deriving DecidableEq

/-- Lines 29-41 followed by the set-up of lines 43-66.  `readFile` is
`os.ReadFile`. -/
def start (f : Flags) (readFile : String → Except String String) : Proc :=
  if f.apiKey = "" then .exited 1 [.keyRequired, .usage]
  else
    match readFile f.promptFile with
    | .error err => .exited 1 [.readError err]
    | .ok bytes => .running bytes.trim initState

/-! ## Steps -/

/-- What the scheduler, the runtime and the network decide for one step. -/
structure Env where
  pickTick : Bool
  buildOk : Bool
  resp : Option Int
deriving DecidableEq

/-- Who moves. -/
inductive Action
  | interrupt
  | handler
  | main (e : Env)
  | reporterTick
  | tickFire (w : Nat)
  | worker (w : Nat) (e : Env)
deriving DecidableEq

/-- What a step prints or does outside the process. -/
inductive Event
  | signal
  | shutdownMsg
  | progress (n : Nat)
  | finalTotal (n : Nat)
  | finalHist (h : Hist)
  | buildError (w : Nat)
  | sendError (w : Nat)
  | fired (w : Nat)
  | tick (w : Nat)
  | newRequest (w : Nat)
  | send (w : Nat)
  | response (w : Nat) (code : Int)
deriving DecidableEq

/-- The test `*interval > 0` of line 77: the worker has a ticker. -/
def paced (f : Flags) : Bool := decide (0 < f.interval)

/-- The function `cancel` of line 50. -/
def cancel (s : State) : State := { s with cancelled := true }

/-- The worker leaves its goroutine function (lines 86 and 91): the deferred
`ticker.Stop()` and `wg.Done()` run. -/
def workerReturn (s : State) (w : Worker) : State × Worker × List Event :=
  ({ s with wg := s.wg - 1 }, { w with pc := .exited }, [])

/-- The worker receives from `ticker.C` (line 87) and goes on to the body. -/
def workerTakeTick (id : Nat) (s : State) (w : Worker) : State × Worker × List Event :=
  (s, { w with pc := .build, tick := false }, [.tick id])

/-- One step of worker `id` (lines 82-128).  `none`: the worker is blocked
or gone. -/
def workerStep (f : Flags) (id : Nat) (s : State) (w : Worker) (e : Env) :
    Option (State × Worker × List Event) :=
  match w.pc with
  | .top =>
    if paced f then
      match s.cancelled, w.tick with
      | true, true => if e.pickTick then some (workerTakeTick id s w) else some (workerReturn s w)
      | true, false => some (workerReturn s w)
      | false, true => some (workerTakeTick id s w)
      | false, false => none
    else if s.cancelled then some (workerReturn s w)
    else some (s, { w with pc := .build }, [])
  | .build =>
    if e.buildOk then some (s, { w with pc := .send }, [.newRequest id])
    else some (s, { w with pc := .top }, [.newRequest id, .buildError id])
  | .send =>
    match e.resp with
    | none => some (s, { w with pc := .count }, [.send id, .sendError id])
    | some c => some (s, { w with pc := .record c }, [.send id, .response id c])
  | .record c =>
    some ({ s with statusCodes := recordStatus s.statusCodes c }, { w with pc := .count }, [])
  | .count => some ({ s with count := s.count + 1 }, { w with pc := .top }, [])
  | .exited => none

/-- One step of the main goroutine (lines 71-151). -/
def mainStep (f : Flags) (s : State) (e : Env) : Option (State × List Event) :=
  match s.main with
  | .spawn i =>
    if (i : Int) < f.workers then
      some ({ s with wg := s.wg + 1, workers := s.workers ++ [{ pc := .top, tick := false }],
                     main := .spawn (i + 1) }, [])
    else some ({ s with main := .poll }, [])
  | .poll =>
    match s.cancelled, s.ticker with
    | true, true =>
      if e.pickTick then some ({ s with ticker := false }, [.progress s.count])
      else some ({ s with main := .wait }, [])
    | true, false => some ({ s with main := .wait }, [])
    | false, true => some ({ s with ticker := false }, [.progress s.count])
    | false, false => none
  | .wait => if s.wg = 0 then some ({ s with main := .total }, []) else none
  | .total => some ({ s with main := .hist }, [.finalTotal s.count])
  | .hist => some ({ cancel s with main := .returned }, [.finalHist s.statusCodes])
  | .returned => none

/-- One step of the whole process.  Nothing moves once `main` has returned. -/
def step (f : Flags) (s : State) (a : Action) : Option (State × List Event) :=
  if s.main = .returned then none
  else
    match a with
    | .interrupt => some ({ s with sigs := true }, [.signal])
    | .handler =>
      if s.sigs && !s.handled then
        some ({ cancel s with sigs := false, handled := true }, [.shutdownMsg])
      else none
    | .main e => mainStep f s e
    | .reporterTick =>
      match s.main with
      | .spawn _ => none
      | _ => some ({ s with ticker := true }, [])
    | .tickFire w =>
      if paced f then
        match s.workers[w]? with
        | none => none
        | some wk =>
          if wk.pc = .exited then none
          else some ({ s with workers := s.workers.set w { wk with tick := true } }, [.fired w])
      else none
    | .worker w e =>
      match s.workers[w]? with
      | none => none
      | some wk =>
        match workerStep f w s wk e with
        | none => none
        | some (s', wk', evs) => some ({ s' with workers := s'.workers.set w wk' }, evs)

/-- Run a schedule from `s`, collecting the events.  `none`: some action of the
schedule was not enabled. -/
def run (f : Flags) : State → List Action → Option (State × List Event)
  | s, [] => some (s, [])
  | s, a :: as =>
    match step f s a with
    | none => none
    | some (s', ev) =>
      match run f s' as with
      | none => none
      | some (s'', evs) => some (s'', ev ++ evs)

/-- Exit code of the process once the run has begun: `main` returning ends
the process with code 0. -/
def exitCode (s : State) : Option Nat :=
  if s.main = .returned then some 0 else none

/-! ## The steps as a relation

The same steps once more, one constructor per way a step can go; `step_sound`
below shows that every step of `step` is one of them. -/

/-- The ways `workerStep` moves a worker. -/
inductive WStep (f : Flags) (id : Nat) (s : State) (w : Worker) :
    State → Worker → List Event → Prop
  | leave : w.pc = .top → s.cancelled = true →
      WStep f id s w { s with wg := s.wg - 1 } { w with pc := .exited } []
  | takeTick : w.pc = .top → paced f = true → w.tick = true →
      WStep f id s w s { w with pc := .build, tick := false } [.tick id]
  | pass : w.pc = .top → paced f = false → s.cancelled = false →
      WStep f id s w s { w with pc := .build } []
  | built : w.pc = .build → WStep f id s w s { w with pc := .send } [.newRequest id]
  | buildFail : w.pc = .build →
      WStep f id s w s { w with pc := .top } [.newRequest id, .buildError id]
  | sendFail : w.pc = .send →
      WStep f id s w s { w with pc := .count } [.send id, .sendError id]
  | responded (c : Int) : w.pc = .send →
      WStep f id s w s { w with pc := .record c } [.send id, .response id c]
  | recorded (c : Int) : w.pc = .record c →
      WStep f id s w { s with statusCodes := recordStatus s.statusCodes c }
        { w with pc := .count } []
  | counted : w.pc = .count →
      WStep f id s w { s with count := s.count + 1 } { w with pc := .top } []

/-- The ways `step` moves the process. -/
inductive Step (f : Flags) (s : State) : State → List Event → Prop
  | interrupt : Step f s { s with sigs := true } [.signal]
  | handler : s.sigs = true → s.handled = false →
      Step f s { cancel s with sigs := false, handled := true } [.shutdownMsg]
  | spawn (i : Nat) : s.main = .spawn i → (i : Int) < f.workers →
      Step f s { s with wg := s.wg + 1, workers := s.workers ++ [{ pc := .top, tick := false }],
                        main := .spawn (i + 1) } []
  | spawned (i : Nat) : s.main = .spawn i → ¬ (i : Int) < f.workers →
      Step f s { s with main := .poll } []
  | progress : s.main = .poll → s.ticker = true →
      Step f s { s with ticker := false } [.progress s.count]
  | observed : s.main = .poll → s.cancelled = true → Step f s { s with main := .wait } []
  | drained : s.main = .wait → s.wg = 0 → Step f s { s with main := .total } []
  | total : s.main = .total → Step f s { s with main := .hist } [.finalTotal s.count]
  | hist : s.main = .hist →
      Step f s { cancel s with main := .returned } [.finalHist s.statusCodes]
  | reporterTick : (∀ i, s.main ≠ .spawn i) → Step f s { s with ticker := true } []
  | tickFire (w : Nat) (wk : Worker) : paced f = true → s.workers[w]? = some wk →
      wk.pc ≠ .exited →
      Step f s { s with workers := s.workers.set w { wk with tick := true } } [.fired w]
  | worker (w : Nat) (wk : Worker) (s1 : State) (wk1 : Worker) (ev : List Event) :
      s.workers[w]? = some wk → WStep f w s wk s1 wk1 ev →
      Step f s { s1 with workers := s1.workers.set w wk1 } ev

/-! ## One worker, sequentially -/

/-- How one attempt (lines 104-126) ends. -/
inductive Outcome
  | response (code : Int)
  | transportError
  | buildError
deriving DecidableEq

/-- The two aggregated values. -/
structure Metrics where
  count : Nat
  statusCodes : Hist
deriving DecidableEq

/-- The loop body after the cancellation check (lines 104-127) run to its end
by one worker with nobody else moving. -/
def loopBody (m : Metrics) : Outcome → Metrics
  | .buildError => m
  | .transportError => { m with count := m.count + 1 }
  | .response c => { count := m.count + 1, statusCodes := recordStatus m.statusCodes c }

/-- The loop of one worker over a list of attempt outcomes. -/
def runWorker (m : Metrics) (os : List Outcome) : Metrics :=
  os.foldl loopBody m

/-- The snapshot of lines 139-145 of freshly created metrics. -/
def emptyMetrics : Metrics := { count := 0, statusCodes := [] }

/-- The inputs under which worker steps produce a given outcome. -/
def envOf : Outcome → Env
  | .response c => { pickTick := true, buildOk := true, resp := some c }
  | .transportError => { pickTick := true, buildOk := true, resp := none }
  | .buildError => { pickTick := true, buildOk := false, resp := none }

/-- The schedule in which worker `w`, past the check, runs one loop body alone. -/
def bodyActions (w : Nat) (o : Outcome) : List Action :=
  match o with
  | .buildError => [.worker w (envOf o)]
  | .transportError => [.worker w (envOf o), .worker w (envOf o), .worker w (envOf o)]
  | .response _ =>
    [.worker w (envOf o), .worker w (envOf o), .worker w (envOf o), .worker w (envOf o)]

/-- What the schedule `bodyActions w o` prints and does. -/
def bodyEvents (w : Nat) : Outcome → List Event
  | .buildError => [.newRequest w, .buildError w]
  | .transportError => [.newRequest w, .send w, .sendError w]
  | .response c => [.newRequest w, .send w, .response w c]

/-- The state of the spawn loop of line 71, `k` rounds after `s` with index `i`. -/
def afterSpawns (s : State) (i k : Nat) : State :=
  { s with wg := s.wg + k,
           workers := s.workers ++ List.replicate k { pc := .top, tick := false },
           main := .spawn (i + k) }

/-- The state in which `main` has left the spawn loop of a fresh run. -/
def allStarted (f : Flags) : State :=
  { initState with wg := f.workers.toNat,
                   workers := List.replicate f.workers.toNat { pc := .top, tick := false },
                   main := .poll }

/-! ## Observations on states and event lists -/

/-- Worker `w` has been started and has returned. -/
def isExited (s : State) (w : Nat) : Bool :=
  match s.workers[w]? with
  | some wk => decide (wk.pc = .exited)
  | none => false

/-- Worker `w` has been started and has not returned. -/
def isRunning (s : State) (w : Nat) : Bool :=
  match s.workers[w]? with
  | some wk => decide (wk.pc ≠ .exited)
  | none => false

/-- Number of workers standing at the counter increment of line 127. -/
def atCount (ws : List Worker) : Nat := ws.countP (fun wk => decide (wk.pc = .count))

/-- Number of workers that have not returned. -/
def live (ws : List Worker) : Nat := ws.countP (fun wk => decide (wk.pc ≠ .exited))

/-- Number of times the final total was printed. -/
def totalsPrinted (evs : List Event) : Nat :=
  evs.countP (fun ev => match ev with | .finalTotal _ => true | _ => false)

/-- Number of times the final distribution was printed. -/
def histsPrinted (evs : List Event) : Nat :=
  evs.countP (fun ev => match ev with | .finalHist _ => true | _ => false)

/-- Number of ticks worker `w` received. -/
def ticksTaken (w : Nat) (evs : List Event) : Nat := evs.count (.tick w)

/-- Number of times the ticker of worker `w` fired. -/
def ticksFired (w : Nat) (evs : List Event) : Nat := evs.count (.fired w)

/-- Number of attempts worker `w` made (calls of `http.NewRequest`). -/
def attempts (w : Nat) (evs : List Event) : Nat := evs.count (.newRequest w)

/-! ## Facts kept by every step -/

/-- Control facts: the spawn loop index, the wait group, the path to the final
report and where cancellation comes from. -/
structure Core (f : Flags) (s : State) (evs : List Event) : Prop where
  spawnIdx : ∀ i, s.main = .spawn i → s.workers.length = i
  lenLe : (s.workers.length : Int) ≤ max f.workers 0
  lenEq : (∀ i, s.main ≠ .spawn i) → (s.workers.length : Int) = max f.workers 0
  wgLive : s.wg = live s.workers
  drained : s.main = .total ∨ s.main = .hist ∨ s.main = .returned → live s.workers = 0
  seen : s.main = .wait ∨ s.main = .total ∨ s.main = .hist ∨ s.main = .returned →
    s.cancelled = true
  byHandler : s.cancelled = true → s.handled = true
  bySignal : s.sigs = true ∨ s.handled = true → Event.signal ∈ evs
  announced : s.handled = true → Event.shutdownMsg ∈ evs

/-- Facts about the final report: how often each part was printed and that
what was printed is what the variables hold. -/
structure Report (s : State) (evs : List Event) : Prop where
  totals : totalsPrinted evs = if s.main = .hist ∨ s.main = .returned then 1 else 0
  hists : histsPrinted evs = if s.main = .returned then 1 else 0
  totalVal : ∀ n, Event.finalTotal n ∈ evs → n = s.count
  histVal : ∀ h, Event.finalHist h ∈ evs → h = s.statusCodes

/-- Worker `w` of the list stands past the check, before `http.NewRequest`. -/
def atBuild (ws : List Worker) (w : Nat) : Bool :=
  match ws[w]? with
  | some wk => decide (wk.pc = .build)
  | none => false

/-- The ticker channel of worker `w` of the list holds a tick. -/
def hasTick (ws : List Worker) (w : Nat) : Bool :=
  match ws[w]? with
  | some wk => wk.tick
  | none => false

/-- Tick accounting for every worker. -/
structure Ticks (f : Flags) (s : State) (evs : List Event) : Prop where
  taken : ∀ w, paced f = true →
    attempts w evs + (if atBuild s.workers w then 1 else 0) = ticksTaken w evs
  untimed : ∀ w, paced f = false → ticksTaken w evs = 0
  fired : ∀ w, ticksTaken w evs + (if hasTick s.workers w then 1 else 0) ≤ ticksFired w evs

/-- Where the keys of the histogram come from: every key, and every status a
worker is about to record, was delivered by `client.Do`. -/
structure Keys (s : State) (evs : List Event) : Prop where
  inMap : ∀ c, (Hist.get s.statusCodes c).isSome = true → ∃ w, Event.response w c ∈ evs
  inHand : ∀ w wk c, s.workers[w]? = some wk → wk.pc = .record c →
    Event.response w c ∈ evs

/-! ## Concrete inputs -/

/-- Flags for an unpaced run with `n` workers. -/
def flagsUnpaced (n : Int) : Flags :=
  { workers := n, baseURL := "http://localhost", apiKey := "k", model := "gpt-4o-mini",
    interval := 0, promptFile := "prompt.txt", timeout := 0 }

/-- Flags for a paced run with `n` workers, one request per second. -/
def flagsPaced (n : Int) : Flags :=
  { workers := n, baseURL := "http://localhost", apiKey := "k", model := "gpt-4o-mini",
    interval := 1000000000, promptFile := "prompt.txt", timeout := 0 }

/-- Some input for steps in which nothing is left open. -/
def env0 : Env := { pickTick := true, buildOk := true, resp := some 200 }

/-- A run in the reporter loop with one started worker at control point `pc`. -/
def oneWorker (pc : WorkerPc) (tick cancelled : Bool) : State :=
  { initState with cancelled := cancelled, handled := cancelled, wg := 1,
                   workers := [{ pc := pc, tick := tick }], main := .poll }

/-- One worker is started and carries one request up to the histogram update,
stopping before the counter increment. -/
def schedRecorded : List Action :=
  [.main env0, .main env0, .worker 0 env0, .worker 0 env0, .worker 0 env0, .worker 0 env0]

/-- Where `schedRecorded` ends in an unpaced run. -/
def stateRecorded : State :=
  { initState with statusCodes := [(200, 1)], wg := 1,
                   workers := [{ pc := .count, tick := false }], main := .poll }

/-- Number of attempts of a list that ended in a response. -/
def responses (os : List Outcome) : Nat :=
  os.countP (fun o => match o with | .response _ => true | _ => false)

/-- Ten attempts alternating status 500 and a connection error. -/
def altTen : List Outcome :=
  [.response 500, .transportError, .response 500, .transportError, .response 500,
   .transportError, .response 500, .transportError, .response 500, .transportError]

/-- One worker is started, makes one request answered with 200 and counts it. -/
def schedCounted : List Action :=
  [.main env0, .main env0, .worker 0 env0, .worker 0 env0, .worker 0 env0, .worker 0 env0,
   .worker 0 env0]

/-- Where `schedCounted` ends in an unpaced run. -/
def stateCounted : State :=
  { initState with count := 1, statusCodes := [(200, 1)], wg := 1,
                   workers := [{ pc := .top, tick := false }], main := .poll }

/-- A paced run: one worker is started, takes its first tick and builds its
request; before the request is over its ticker fires again, the interrupt
arrives and the signal goroutine cancels the context; then the response comes
back and is recorded and counted. -/
def schedCancelled : List Action :=
  [.main env0, .main env0, .tickFire 0, .worker 0 env0, .worker 0 env0, .tickFire 0,
   .interrupt, .handler, .worker 0 env0, .worker 0 env0, .worker 0 env0]

/-- Where `schedCancelled` ends: context cancelled, the worker at the top of
its loop with a tick pending. -/
def stateCancelled : State :=
  { initState with count := 1, statusCodes := [(200, 1)], cancelled := true, handled := true,
                   wg := 1, workers := [{ pc := .top, tick := true }], main := .poll }

/-- What `schedCancelled` prints and does. -/
def eventsCancelled : List Event :=
  [.fired 0, .tick 0, .newRequest 0, .fired 0, .signal, .shutdownMsg, .send 0,
   .response 0 200]

/-- An input in which a `select` with two ready cases takes the cancellation. -/
def envDone : Env := { pickTick := false, buildOk := true, resp := some 200 }

/-- The worker's `select` takes the tick and the iteration runs to its end. -/
def schedLate : List Action :=
  [.worker 0 env0, .worker 0 env0, .worker 0 env0, .worker 0 env0, .worker 0 env0]

/-- Where `schedLate` ends from `stateCancelled`. -/
def stateLate : State :=
  { initState with count := 2, statusCodes := [(200, 2)], cancelled := true, handled := true,
                   wg := 1, workers := [{ pc := .top, tick := false }], main := .poll }

/-- A whole unpaced run of one worker: one request answered with 200, then the
interrupt, the worker leaves, `main` waits and prints the final report. -/
def schedFull : List Action :=
  [.main env0, .main env0, .worker 0 env0, .worker 0 env0, .worker 0 env0, .worker 0 env0,
   .worker 0 env0, .interrupt, .handler, .worker 0 env0, .main env0, .main env0, .main env0,
   .main env0]

/-- Where `schedFull` ends. -/
def stateFull : State :=
  { initState with count := 1, statusCodes := [(200, 1)], cancelled := true, handled := true,
                   workers := [{ pc := .exited, tick := false }], main := .returned }

/-- What `schedFull` prints and does. -/
def eventsFull : List Event :=
  [.newRequest 0, .send 0, .response 0 200, .signal, .shutdownMsg, .finalTotal 1,
   .finalHist [(200, 1)]]

/-- A paced run: one worker is started, its ticker fires once, the worker takes
the tick and builds its request. -/
def schedPaced : List Action :=
  [.main env0, .main env0, .tickFire 0, .worker 0 env0, .worker 0 env0]

/-- Where `schedPaced` ends. -/
def statePaced : State :=
  { initState with wg := 1, workers := [{ pc := .send, tick := false }], main := .poll }

/-- A file system in which every file reads as `"hello"`. -/
def readOk : String → Except String String := fun _ => .ok "hello"

/-- A file system in which no file can be read. -/
def readFails : String → Except String String := fun _ => .error "no such file"

/-- Some schedule leads from `s` to `s1`. -/
def Reaches (f : Flags) (s s1 : State) : Prop :=
  ∃ (bs : List Action) (ev : List Event), run f s bs = some (s1, ev)

/-- An input under which a worker gets back to the top of its loop fastest and
a `select` with two ready cases takes the cancellation. -/
def envStop : Env := { pickTick := false, buildOk := false, resp := none }


/-! # Theorems -/

/-! ## The relation covers the function -/

theorem workerStep_sound {f : Flags} {id : Nat} {s : State} {w : Worker} {e : Env}
    {s1 : State} {w1 : Worker} {ev : List Event}
    (h : workerStep f id s w e = some (s1, w1, ev)) : WStep f id s w s1 w1 ev := by
  unfold workerStep at h
  split at h
  · split at h
    · split at h
      · split at h
        · simp only [workerTakeTick, Option.some.injEq, Prod.mk.injEq] at h
          obtain ⟨rfl, rfl, rfl⟩ := h
          exact .takeTick ‹_› ‹_› ‹_›
        · simp only [workerReturn, Option.some.injEq, Prod.mk.injEq] at h
          obtain ⟨rfl, rfl, rfl⟩ := h
          exact .leave ‹_› ‹_›
      · simp only [workerReturn, Option.some.injEq, Prod.mk.injEq] at h
        obtain ⟨rfl, rfl, rfl⟩ := h
        exact .leave ‹_› ‹_›
      · simp only [workerTakeTick, Option.some.injEq, Prod.mk.injEq] at h
        obtain ⟨rfl, rfl, rfl⟩ := h
        exact .takeTick ‹_› ‹_› ‹_›
      · simp at h
    · split at h
      · simp only [workerReturn, Option.some.injEq, Prod.mk.injEq] at h
        obtain ⟨rfl, rfl, rfl⟩ := h
        exact .leave ‹_› ‹_›
      · simp only [Option.some.injEq, Prod.mk.injEq] at h
        obtain ⟨rfl, rfl, rfl⟩ := h
        exact .pass ‹_› (by simpa using ‹¬ paced f = true›) (by simpa using ‹¬ s.cancelled = true›)
  · split at h <;>
      · simp only [Option.some.injEq, Prod.mk.injEq] at h
        obtain ⟨rfl, rfl, rfl⟩ := h
        first | exact .built ‹_› | exact .buildFail ‹_›
  · split at h <;>
      · simp only [Option.some.injEq, Prod.mk.injEq] at h
        obtain ⟨rfl, rfl, rfl⟩ := h
        first | exact .sendFail ‹_› | exact .responded _ ‹_›
  · simp only [Option.some.injEq, Prod.mk.injEq] at h
    obtain ⟨rfl, rfl, rfl⟩ := h
    exact .recorded _ ‹_›
  · simp only [Option.some.injEq, Prod.mk.injEq] at h
    obtain ⟨rfl, rfl, rfl⟩ := h
    exact .counted ‹_›
  · simp at h

theorem mainStep_sound {f : Flags} {s : State} {e : Env} {s1 : State} {ev : List Event}
    (h : mainStep f s e = some (s1, ev)) : Step f s s1 ev := by
  unfold mainStep at h
  split at h
  · split at h <;>
      · simp only [Option.some.injEq, Prod.mk.injEq] at h
        obtain ⟨rfl, rfl⟩ := h
        first | exact .spawn _ ‹_› ‹_› | exact .spawned _ ‹_› ‹_›
  · split at h
    · split at h <;>
        · simp only [Option.some.injEq, Prod.mk.injEq] at h
          obtain ⟨rfl, rfl⟩ := h
          first | exact .progress ‹_› ‹_› | exact .observed ‹_› ‹_›
    · simp only [Option.some.injEq, Prod.mk.injEq] at h
      obtain ⟨rfl, rfl⟩ := h
      exact .observed ‹_› ‹_›
    · simp only [Option.some.injEq, Prod.mk.injEq] at h
      obtain ⟨rfl, rfl⟩ := h
      exact .progress ‹_› ‹_›
    · simp at h
  · split at h
    · simp only [Option.some.injEq, Prod.mk.injEq] at h
      obtain ⟨rfl, rfl⟩ := h
      exact .drained ‹_› ‹_›
    · simp at h
  · simp only [Option.some.injEq, Prod.mk.injEq] at h
    obtain ⟨rfl, rfl⟩ := h
    exact .total ‹_›
  · simp only [Option.some.injEq, Prod.mk.injEq] at h
    obtain ⟨rfl, rfl⟩ := h
    exact .hist ‹_›
  · simp at h

theorem step_sound {f : Flags} {s : State} {a : Action} {s1 : State} {ev : List Event}
    (h : step f s a = some (s1, ev)) : s.main ≠ .returned ∧ Step f s s1 ev := by
  unfold step at h
  split at h
  · simp at h
  · refine ⟨‹_›, ?_⟩
    split at h
    · simp only [Option.some.injEq, Prod.mk.injEq] at h
      obtain ⟨rfl, rfl⟩ := h
      exact .interrupt
    · split at h
      · simp only [Option.some.injEq, Prod.mk.injEq] at h
        obtain ⟨rfl, rfl⟩ := h
        rename_i hc
        simp only [Bool.and_eq_true, Bool.not_eq_true', Bool.not_eq_eq_eq_not] at hc
        exact .handler hc.1 (by simpa using hc.2)
      · simp at h
    · exact mainStep_sound h
    · split at h
      · simp at h
      · simp only [Option.some.injEq, Prod.mk.injEq] at h
        obtain ⟨rfl, rfl⟩ := h
        rename_i hm
        exact .reporterTick (fun i hi => hm i hi)
    · split at h
      · split at h
        · simp at h
        · split at h
          · simp at h
          · simp only [Option.some.injEq, Prod.mk.injEq] at h
            obtain ⟨rfl, rfl⟩ := h
            exact .tickFire _ _ ‹_› ‹_› ‹_›
      · simp at h
    · split at h
      · simp at h
      · split at h
        · simp at h
        · simp only [Option.some.injEq, Prod.mk.injEq] at h
          obtain ⟨rfl, rfl⟩ := h
          rename_i hw
          have hs := workerStep_sound hw
          exact .worker _ _ _ _ _ ‹_› hs

/-- Whatever holds at the start and is kept by every step holds after every
schedule. -/
theorem run_from {f : Flags} (P : State → List Event → Prop)
    (hstep : ∀ s evs s1 ev, P s evs → s.main ≠ .returned → Step f s s1 ev → P s1 (evs ++ ev)) :
    ∀ (as : List Action) (s0 : State) (evs0 : List Event) (s : State) (evs : List Event),
      P s0 evs0 → run f s0 as = some (s, evs) → P s (evs0 ++ evs) := by
  intro as
  induction as with
  | nil =>
    intro s0 evs0 s evs h0 h
    simp only [run, Option.some.injEq, Prod.mk.injEq] at h
    obtain ⟨rfl, rfl⟩ := h
    simpa using h0
  | cons a as ih =>
    intro s0 evs0 s evs h0 h
    simp only [run] at h
    split at h
    · simp at h
    · rename_i s1 ev hs
      split at h
      · simp at h
      · rename_i s2 evs2 hr
        simp only [Option.some.injEq, Prod.mk.injEq] at h
        obtain ⟨rfl, rfl⟩ := h
        have h1 := step_sound hs
        have := ih s1 (evs0 ++ ev) _ _ (hstep _ _ _ _ h0 h1.1 h1.2) hr
        simpa [List.append_assoc] using this

theorem run_init {f : Flags} (P : State → List Event → Prop) (h0 : P initState [])
    (hstep : ∀ s evs s1 ev, P s evs → s.main ≠ .returned → Step f s s1 ev → P s1 (evs ++ ev))
    {as : List Action} {s : State} {evs : List Event}
    (h : run f initState as = some (s, evs)) : P s evs := by
  simpa using run_from P hstep as initState [] s evs h0 h

/-! ## Counting workers -/

theorem countP_set_add (p : Worker → Bool) :
    ∀ (ws : List Worker) (w : Nat) (wk wk1 : Worker), ws[w]? = some wk →
      (ws.set w wk1).countP p + (if p wk then 1 else 0)
        = ws.countP p + (if p wk1 then 1 else 0) := by
  intro ws
  induction ws with
  | nil => intro w wk wk1 h; simp at h
  | cons a t ih =>
    intro w wk wk1 h
    cases w with
    | zero =>
      simp only [List.getElem?_cons_zero, Option.some.injEq] at h
      subst h
      simp only [List.set_cons_zero, List.countP_cons]
      omega
    | succ n =>
      simp only [List.getElem?_cons_succ] at h
      have := ih n wk wk1 h
      simp only [List.set_cons_succ, List.countP_cons]
      omega

theorem live_set_keep {ws : List Worker} {w : Nat} {wk : Worker} (wk1 : Worker)
    (h : ws[w]? = some wk)
    (h0 : wk.pc ≠ .exited) (h1 : wk1.pc ≠ .exited) : live (ws.set w wk1) = live ws := by
  have := countP_set_add (fun wk => decide (wk.pc ≠ .exited)) ws w wk wk1 h
  simp only [live]
  simp [h0, h1] at this
  simpa using this

theorem live_set_leave {ws : List Worker} {w : Nat} {wk : Worker} (wk1 : Worker)
    (h : ws[w]? = some wk)
    (h0 : wk.pc ≠ .exited) (h1 : wk1.pc = .exited) : live (ws.set w wk1) + 1 = live ws := by
  have := countP_set_add (fun wk => decide (wk.pc ≠ .exited)) ws w wk wk1 h
  simp only [live]
  simp [h0, h1] at this
  simpa using this

theorem live_pos {ws : List Worker} {w : Nat} {wk : Worker} (h : ws[w]? = some wk)
    (h0 : wk.pc ≠ .exited) : 0 < live ws := by
  simp only [live, List.countP_pos_iff]
  exact ⟨wk, List.getElem?_mem h, by simpa using h0⟩

theorem live_append_top (ws : List Worker) :
    live (ws ++ [{ pc := .top, tick := false }]) = live ws + 1 := by
  simp [live, List.countP_append]

/-! ## The control facts hold in every reachable state -/

theorem core_init (f : Flags) : Core f initState [] := by
  constructor <;> simp [initState, live]

/-- A step that leaves the control of `main`, the wait group and cancellation
alone keeps the control facts. -/
theorem core_frame {f : Flags} {s : State} {evs : List Event} {s1 : State} {ev : List Event}
    (hI : Core f s evs) (e3 : s1.main = s.main) (e1 : s1.wg = s.wg)
    (hl : live s1.workers = live s.workers) (e2 : s1.workers.length = s.workers.length)
    (e4 : s1.cancelled = s.cancelled) (e6 : s1.handled = s.handled)
    (e5 : s1.sigs = true → s.sigs = true ∨ Event.signal ∈ ev) :
    Core f s1 (evs ++ ev) := by
  obtain ⟨h1, h2, h3, h4, h5, h6, h7, h8, h9⟩ := hI
  constructor
  · intro i hi; rw [e2]; exact h1 i (by rw [← e3]; exact hi)
  · rw [e2]; exact h2
  · intro hi; rw [e2]; exact h3 (by rw [← e3]; exact hi)
  · rw [e1, hl]; exact h4
  · intro hm; rw [hl]; exact h5 (by rw [← e3]; exact hm)
  · intro hm; rw [e4]; exact h6 (by rw [← e3]; exact hm)
  · intro hc; rw [e6]; exact h7 (by rw [← e4]; exact hc)
  · intro hc
    rcases hc with hc | hc
    · rcases e5 hc with h | h
      · exact List.mem_append_left _ (h8 (Or.inl h))
      · exact List.mem_append_right _ h
    · exact List.mem_append_left _ (h8 (Or.inr (by rw [← e6]; exact hc)))
  · intro hc; exact List.mem_append_left _ (h9 (by rw [← e6]; exact hc))

theorem core_step_worker {f : Flags} {s : State} {evs : List Event} {w : Nat} {wk : Worker}
    {s2 : State} {wk1 : Worker} {ev : List Event}
    (hI : Core f s evs) (hget : s.workers[w]? = some wk) (hw : WStep f w s wk s2 wk1 ev) :
    Core f { s2 with workers := s2.workers.set w wk1 } (evs ++ ev) := by
  have hkeep : wk.pc ≠ .exited → wk1.pc ≠ .exited → s2.wg = s.wg → s2.workers = s.workers →
      s2.main = s.main → s2.cancelled = s.cancelled → s2.sigs = s.sigs →
      s2.handled = s.handled →
      Core f { s2 with workers := s2.workers.set w wk1 } (evs ++ ev) := by
    intro a b e1 e2 e3 e4 e5 e6
    have hl := live_set_keep wk1 hget a b
    refine core_frame hI e3 e1 ?_ ?_ e4 e6 ?_
    · simp only [e2, hl]
    · simp only [e2, List.length_set]
    · intro h; left; rw [← e5]; exact h
  cases hw with
  | leave hpc hc =>
    obtain ⟨h1, h2, h3, h4, h5, h6, h7, h8, h9⟩ := hI
    have hl := live_set_leave { wk with pc := .exited } hget (by simp [hpc]) rfl
    constructor
    · intro i hi; simpa using h1 i hi
    · simpa using h2
    · intro hi; simpa using h3 hi
    · simp only [h4]; omega
    · intro hm
      have := h5 hm
      omega
    · intro hm; exact h6 hm
    · intro hc; exact h7 hc
    · intro hc; simpa using h8 hc
    · intro hc; simpa using h9 hc
  | takeTick hpc hp ht => exact hkeep (by simp [hpc]) (by simp) rfl rfl rfl rfl rfl rfl
  | pass hpc hp hc => exact hkeep (by simp [hpc]) (by simp) rfl rfl rfl rfl rfl rfl
  | built hpc => exact hkeep (by simp [hpc]) (by simp) rfl rfl rfl rfl rfl rfl
  | buildFail hpc => exact hkeep (by simp [hpc]) (by simp) rfl rfl rfl rfl rfl rfl
  | sendFail hpc => exact hkeep (by simp [hpc]) (by simp) rfl rfl rfl rfl rfl rfl
  | responded c hpc => exact hkeep (by simp [hpc]) (by simp) rfl rfl rfl rfl rfl rfl
  | recorded c hpc => exact hkeep (by simp [hpc]) (by simp) rfl rfl rfl rfl rfl rfl
  | counted hpc => exact hkeep (by simp [hpc]) (by simp) rfl rfl rfl rfl rfl rfl

theorem core_step {f : Flags} {s : State} {evs : List Event} {s1 : State} {ev : List Event}
    (hI : Core f s evs) (hs : Step f s s1 ev) :
    Core f s1 (evs ++ ev) := by
  cases hs with
  | worker w wk s2 wk1 ev hget hw => exact core_step_worker hI hget hw
  | interrupt => exact core_frame hI rfl rfl rfl rfl rfl rfl (fun _ => Or.inr (by simp))
  | progress hm ht => exact core_frame hI rfl rfl rfl rfl rfl rfl (fun h => Or.inl h)
  | reporterTick hm => exact core_frame hI rfl rfl rfl rfl rfl rfl (fun h => Or.inl h)
  | tickFire w wk hp hget hpc =>
    have hl := live_set_keep { wk with tick := true } hget hpc hpc
    exact core_frame hI rfl rfl hl (by simp) rfl rfl (fun h => Or.inl h)
  | handler hsig hh =>
    obtain ⟨h1, h2, h3, h4, h5, h6, h7, h8, h9⟩ := hI
    have := h8 (Or.inl hsig)
    constructor
    · exact h1
    · exact h2
    · exact h3
    · exact h4
    · exact h5
    · intro _; rfl
    · intro _; rfl
    · intro _; exact List.mem_append_left _ this
    · intro _; simp
  | spawn i hm hlt =>
    obtain ⟨h1, h2, h3, h4, h5, h6, h7, h8, h9⟩ := hI
    have hi := h1 i hm
    constructor
    · intro j hj
      simp only [MainPc.spawn.injEq] at hj
      simp only [List.length_append, List.length_singleton]
      omega
    · simp only [List.length_append, List.length_singleton]
      push_cast
      omega
    · intro hj; exact absurd rfl (hj (i + 1))
    · simp only [live_append_top, h4]; push_cast; rfl
    · intro hj; simp at hj
    · intro hj; simp at hj
    · exact h7
    · intro hj; simpa using h8 hj
    · intro hj; simpa using h9 hj
  | spawned i hm hlt =>
    obtain ⟨h1, h2, h3, h4, h5, h6, h7, h8, h9⟩ := hI
    have hi := h1 i hm
    constructor
    · intro j hj; simp at hj
    · exact h2
    · intro _
      show (s.workers.length : Int) = max f.workers 0
      omega
    · exact h4
    · intro hj; simp at hj
    · intro hj; simp at hj
    · exact h7
    · intro hj; simpa using h8 hj
    · intro hj; simpa using h9 hj
  | observed hm hc =>
    obtain ⟨h1, h2, h3, h4, h5, h6, h7, h8, h9⟩ := hI
    constructor
    · intro j hj; simp at hj
    · exact h2
    · intro _; exact h3 (by simp [hm])
    · exact h4
    · intro hj; simp at hj
    · intro _; exact hc
    · exact h7
    · intro hj; simpa using h8 hj
    · intro hj; simpa using h9 hj
  | drained hm hw =>
    obtain ⟨h1, h2, h3, h4, h5, h6, h7, h8, h9⟩ := hI
    constructor
    · intro j hj; simp at hj
    · exact h2
    · intro _; exact h3 (by simp [hm])
    · exact h4
    · intro _
      show live s.workers = 0
      omega
    · intro _; exact h6 (Or.inl hm)
    · exact h7
    · intro hj; simpa using h8 hj
    · intro hj; simpa using h9 hj
  | total hm =>
    obtain ⟨h1, h2, h3, h4, h5, h6, h7, h8, h9⟩ := hI
    constructor
    · intro j hj; simp at hj
    · exact h2
    · intro _; exact h3 (by simp [hm])
    · exact h4
    · intro _; exact h5 (Or.inl hm)
    · intro _; exact h6 (Or.inr (Or.inl hm))
    · exact h7
    · intro hj; exact List.mem_append_left _ (h8 hj)
    · intro hj; exact List.mem_append_left _ (h9 hj)
  | hist hm =>
    obtain ⟨h1, h2, h3, h4, h5, h6, h7, h8, h9⟩ := hI
    have hc := h6 (Or.inr (Or.inr (Or.inl hm)))
    constructor
    · intro j hj; simp at hj
    · exact h2
    · intro _; exact h3 (by simp [hm])
    · exact h4
    · intro _; exact h5 (Or.inr (Or.inl hm))
    · intro _; rfl
    · intro _; exact h7 hc
    · intro hj; exact List.mem_append_left _ (h8 hj)
    · intro hj; exact List.mem_append_left _ (h9 hj)

theorem core_run {f : Flags} {as : List Action} {s : State} {evs : List Event}
    (h : run f initState as = some (s, evs)) : Core f s evs :=
  run_init (Core f) (core_init f) (fun _ _ _ _ hI _ hs => core_step hI hs) h

/-! ## The final report -/

theorem totalsPrinted_pos {evs : List Event} {n : Nat} (h : Event.finalTotal n ∈ evs) :
    0 < totalsPrinted evs := by
  simp only [totalsPrinted, List.countP_pos_iff]
  exact ⟨_, h, rfl⟩

theorem histsPrinted_pos {evs : List Event} {h : Hist} (hm : Event.finalHist h ∈ evs) :
    0 < histsPrinted evs := by
  simp only [histsPrinted, List.countP_pos_iff]
  exact ⟨_, hm, rfl⟩

theorem totalsPrinted_append (a b : List Event) :
    totalsPrinted (a ++ b) = totalsPrinted a + totalsPrinted b := by
  simp [totalsPrinted, List.countP_append]

theorem histsPrinted_append (a b : List Event) :
    histsPrinted (a ++ b) = histsPrinted a + histsPrinted b := by
  simp [histsPrinted, List.countP_append]

theorem not_mem_of_totalsPrinted {ev : List Event} (h : totalsPrinted ev = 0) (n : Nat) :
    Event.finalTotal n ∉ ev := fun hm => by
  have := totalsPrinted_pos hm
  omega

theorem not_mem_of_histsPrinted {ev : List Event} (h : histsPrinted ev = 0) (x : Hist) :
    Event.finalHist x ∉ ev := fun hm => by
  have := histsPrinted_pos hm
  omega

/-- A step that prints no part of the final report and does not move `main`
into or out of the report keeps the report facts, provided it leaves the
metrics alone or nothing has been printed yet. -/
theorem report_frame {s : State} {evs : List Event} {s1 : State} {ev : List Event}
    (hR : Report s evs)
    (m1 : (s1.main = .hist ∨ s1.main = .returned) ↔ (s.main = .hist ∨ s.main = .returned))
    (m2 : s1.main = .returned ↔ s.main = .returned)
    (p1 : totalsPrinted ev = 0) (p2 : histsPrinted ev = 0)
    (hv : (s1.count = s.count ∧ s1.statusCodes = s.statusCodes) ∨
      ¬ (s.main = .hist ∨ s.main = .returned)) :
    Report s1 (evs ++ ev) := by
  obtain ⟨r1, r2, r3, r4⟩ := hR
  have q1 : ¬ (s.main = .hist ∨ s.main = .returned) → ∀ n, Event.finalTotal n ∉ evs := by
    intro hm n
    rw [if_neg hm] at r1
    exact not_mem_of_totalsPrinted r1 n
  have q2 : ¬ (s.main = .hist ∨ s.main = .returned) → ∀ x, Event.finalHist x ∉ evs := by
    intro hm x
    have : ¬ s.main = .returned := fun h => hm (Or.inr h)
    rw [if_neg this] at r2
    exact not_mem_of_histsPrinted r2 x
  constructor
  · rw [totalsPrinted_append, p1, r1]
    by_cases h : s.main = .hist ∨ s.main = .returned
    · rw [if_pos h, if_pos (m1.2 h)]
    · rw [if_neg h, if_neg (fun h1 => h (m1.1 h1))]
  · rw [histsPrinted_append, p2, r2]
    by_cases h : s.main = .returned
    · rw [if_pos h, if_pos (m2.2 h)]
    · rw [if_neg h, if_neg (fun h1 => h (m2.1 h1))]
  · intro n hn
    rcases List.mem_append.1 hn with hn | hn
    · rcases hv with hv | hv
      · rw [hv.1]; exact r3 n hn
      · exact absurd hn (q1 hv n)
    · exact absurd hn (not_mem_of_totalsPrinted p1 n)
  · intro x hx
    rcases List.mem_append.1 hx with hx | hx
    · rcases hv with hv | hv
      · rw [hv.2]; exact r4 x hx
      · exact absurd hx (q2 hv x)
    · exact absurd hx (not_mem_of_histsPrinted p2 x)

theorem report_init : Report initState [] := by
  constructor <;> simp [initState, totalsPrinted, histsPrinted]

/-- A worker that can step has not returned. -/
theorem WStep.running {f : Flags} {id : Nat} {s : State} {w : Worker} {s1 : State}
    {w1 : Worker} {ev : List Event} (h : WStep f id s w s1 w1 ev) : w.pc ≠ .exited := by
  cases h <;> simp_all

/-- No worker steps once `main` is past `wg.Wait()`. -/
theorem worker_before_report {f : Flags} {s : State} {evs : List Event} {w : Nat}
    {wk : Worker} {s2 : State} {wk1 : Worker} {ev : List Event}
    (hI : Core f s evs) (hget : s.workers[w]? = some wk) (hw : WStep f w s wk s2 wk1 ev) :
    ¬ (s.main = .total ∨ s.main = .hist ∨ s.main = .returned) := by
  intro hm
  have h0 := hI.drained hm
  have := live_pos hget hw.running
  omega

theorem WStep.main_eq {f : Flags} {id : Nat} {s : State} {w : Worker} {s1 : State}
    {w1 : Worker} {ev : List Event} (h : WStep f id s w s1 w1 ev) : s1.main = s.main := by
  cases h <;> rfl

theorem WStep.quiet {f : Flags} {id : Nat} {s : State} {w : Worker} {s1 : State}
    {w1 : Worker} {ev : List Event} (h : WStep f id s w s1 w1 ev) :
    totalsPrinted ev = 0 ∧ histsPrinted ev = 0 := by
  cases h <;> simp [totalsPrinted, histsPrinted]

theorem report_step {f : Flags} {s : State} {evs : List Event} {s1 : State} {ev : List Event}
    (hI : Core f s evs) (hR : Report s evs)
    (hs : Step f s s1 ev) : Report s1 (evs ++ ev) := by
  cases hs with
  | worker w wk s2 wk1 ev hget hw =>
    have hb := worker_before_report hI hget hw
    have hm : s2.main = s.main := hw.main_eq
    refine report_frame hR ?_ ?_ hw.quiet.1 hw.quiet.2 (Or.inr (fun h => hb (Or.inr h)))
    · show (s2.main = .hist ∨ s2.main = .returned) ↔ _
      rw [hm]
    · show s2.main = .returned ↔ _
      rw [hm]
  | interrupt =>
    exact report_frame hR Iff.rfl Iff.rfl (by simp [totalsPrinted]) (by simp [histsPrinted])
      (Or.inl ⟨rfl, rfl⟩)
  | progress hm ht =>
    exact report_frame hR Iff.rfl Iff.rfl (by simp [totalsPrinted]) (by simp [histsPrinted])
      (Or.inl ⟨rfl, rfl⟩)
  | reporterTick hm =>
    exact report_frame hR Iff.rfl Iff.rfl (by simp [totalsPrinted]) (by simp [histsPrinted])
      (Or.inl ⟨rfl, rfl⟩)
  | tickFire w wk hp hget hpc =>
    exact report_frame hR Iff.rfl Iff.rfl (by simp [totalsPrinted]) (by simp [histsPrinted])
      (Or.inl ⟨rfl, rfl⟩)
  | handler hsig hh =>
    exact report_frame hR Iff.rfl Iff.rfl (by simp [totalsPrinted]) (by simp [histsPrinted])
      (Or.inl ⟨rfl, rfl⟩)
  | spawn i hm hlt =>
    exact report_frame hR (by simp [hm]) (by simp [hm]) (by simp [totalsPrinted])
      (by simp [histsPrinted]) (Or.inl ⟨rfl, rfl⟩)
  | spawned i hm hlt =>
    exact report_frame hR (by simp [hm]) (by simp [hm]) (by simp [totalsPrinted])
      (by simp [histsPrinted]) (Or.inl ⟨rfl, rfl⟩)
  | observed hm hc =>
    exact report_frame hR (by simp [hm]) (by simp [hm]) (by simp [totalsPrinted])
      (by simp [histsPrinted]) (Or.inl ⟨rfl, rfl⟩)
  | drained hm hw =>
    exact report_frame hR (by simp [hm]) (by simp [hm]) (by simp [totalsPrinted])
      (by simp [histsPrinted]) (Or.inl ⟨rfl, rfl⟩)
  | total hm =>
    obtain ⟨r1, r2, r3, r4⟩ := hR
    simp only [hm] at r1 r2
    simp only [reduceCtorEq, or_self, if_false] at r1 r2
    constructor
    · rw [totalsPrinted_append, r1]; simp [totalsPrinted]
    · rw [histsPrinted_append, r2]; simp [histsPrinted]
    · intro n hn
      rcases List.mem_append.1 hn with hn | hn
      · exact absurd hn (not_mem_of_totalsPrinted r1 n)
      · simpa using hn
    · intro x hx
      rcases List.mem_append.1 hx with hx | hx
      · exact absurd hx (not_mem_of_histsPrinted r2 x)
      · simp at hx
  | hist hm =>
    obtain ⟨r1, r2, r3, r4⟩ := hR
    simp only [hm] at r1 r2
    simp only [reduceCtorEq, true_or, if_true, if_false] at r1 r2
    constructor
    · rw [totalsPrinted_append, r1]; simp [totalsPrinted]
    · rw [histsPrinted_append, r2]; simp [histsPrinted]
    · intro n hn
      rcases List.mem_append.1 hn with hn | hn
      · exact r3 n hn
      · simp at hn
    · intro x hx
      rcases List.mem_append.1 hx with hx | hx
      · exact absurd hx (not_mem_of_histsPrinted r2 x)
      · simpa using hx

theorem report_run {f : Flags} {as : List Action} {s : State} {evs : List Event}
    (h : run f initState as = some (s, evs)) : Core f s evs ∧ Report s evs :=
  run_init (fun s evs => Core f s evs ∧ Report s evs) ⟨core_init f, report_init⟩
    (fun _ _ _ _ hI _ hs => ⟨core_step hI.1 hs, report_step hI.1 hI.2 hs⟩) h

/-! ## The status map -/

theorem get_recordStatus_same (h : Hist) (c : Int) :
    Hist.get (recordStatus h c) c = some ((Hist.get h c).getD 0 + 1) := by
  induction h with
  | nil => simp [recordStatus, Hist.get]
  | cons a t ih =>
    obtain ⟨k, v⟩ := a
    by_cases hk : k = c
    · simp [recordStatus, Hist.get, hk]
    · simp [recordStatus, Hist.get, hk, ih]

theorem get_recordStatus_other (h : Hist) {c k : Int} (hne : k ≠ c) :
    Hist.get (recordStatus h c) k = Hist.get h k := by
  induction h with
  | nil =>
    have : ¬ c = k := fun e => hne e.symm
    simp [recordStatus, Hist.get, this]
  | cons a t ih =>
    obtain ⟨k1, v⟩ := a
    by_cases hk : k1 = c
    · subst hk
      have : ¬ k1 = k := fun e => hne e.symm
      simp [recordStatus, Hist.get, this]
    · by_cases hk2 : k1 = k
      · subst hk2
        simp [recordStatus, Hist.get, hk]
      · simp [recordStatus, Hist.get, hk, hk2, ih]

theorem histSum_recordStatus (h : Hist) (c : Int) :
    histSum (recordStatus h c) = histSum h + 1 := by
  induction h with
  | nil => simp [recordStatus, histSum]
  | cons a t ih =>
    obtain ⟨k, v⟩ := a
    by_cases hk : k = c
    · simp [recordStatus, histSum, hk]; omega
    · simp [recordStatus, histSum, hk, ih]; omega

/-! ## Histogram sum against the counter -/

theorem atCount_set {ws : List Worker} {w : Nat} {wk : Worker} (wk1 : Worker)
    (h : ws[w]? = some wk) :
    atCount (ws.set w wk1) + (if wk.pc = .count then 1 else 0)
      = atCount ws + (if wk1.pc = .count then 1 else 0) := by
  have := countP_set_add (fun wk => decide (wk.pc = .count)) ws w wk wk1 h
  simpa [atCount] using this

theorem atCount_le_length (ws : List Worker) : atCount ws ≤ ws.length := by
  simpa [atCount] using List.countP_le_length (fun wk : Worker => decide (wk.pc = .count))

theorem metrics_step {f : Flags} {s : State} {s1 : State} {ev : List Event}
    (hI : histSum s.statusCodes ≤ s.count + atCount s.workers) (hs : Step f s s1 ev) :
    histSum s1.statusCodes ≤ s1.count + atCount s1.workers := by
  cases hs with
  | worker w wk s2 wk1 ev hget hw =>
    cases hw with
    | leave hpc hc =>
      have := atCount_set { wk with pc := .exited } hget
      simp only [hpc, reduceCtorEq, if_false] at this
      show histSum s.statusCodes ≤ s.count + atCount (s.workers.set w _)
      omega
    | takeTick hpc hp ht =>
      have := atCount_set { wk with pc := .build, tick := false } hget
      simp only [hpc, reduceCtorEq, if_false] at this
      show histSum s.statusCodes ≤ s.count + atCount (s.workers.set w _)
      omega
    | pass hpc hp hc =>
      have := atCount_set { wk with pc := .build } hget
      simp only [hpc, reduceCtorEq, if_false] at this
      show histSum s.statusCodes ≤ s.count + atCount (s.workers.set w _)
      omega
    | built hpc =>
      have := atCount_set { wk with pc := .send } hget
      simp only [hpc, reduceCtorEq, if_false] at this
      show histSum s.statusCodes ≤ s.count + atCount (s.workers.set w _)
      omega
    | buildFail hpc =>
      have := atCount_set { wk with pc := .top } hget
      simp only [hpc, reduceCtorEq, if_false] at this
      show histSum s.statusCodes ≤ s.count + atCount (s.workers.set w _)
      omega
    | sendFail hpc =>
      have := atCount_set { wk with pc := .count } hget
      simp only [hpc, reduceCtorEq, if_false, if_true] at this
      show histSum s.statusCodes ≤ s.count + atCount (s.workers.set w _)
      omega
    | responded c hpc =>
      have := atCount_set { wk with pc := .record c } hget
      simp only [hpc, reduceCtorEq, if_false] at this
      show histSum s.statusCodes ≤ s.count + atCount (s.workers.set w _)
      omega
    | recorded c hpc =>
      have := atCount_set { wk with pc := .count } hget
      simp only [hpc, reduceCtorEq, if_false, if_true] at this
      show histSum (recordStatus s.statusCodes c) ≤ s.count + atCount (s.workers.set w _)
      rw [histSum_recordStatus]
      omega
    | counted hpc =>
      have := atCount_set { wk with pc := .top } hget
      simp only [hpc, reduceCtorEq, if_false, if_true] at this
      show histSum s.statusCodes ≤ s.count + 1 + atCount (s.workers.set w _)
      omega
  | interrupt => exact hI
  | progress hm ht => exact hI
  | reporterTick hm => exact hI
  | tickFire w wk hp hget hpc =>
    have := atCount_set { wk with tick := true } hget
    simp only [Nat.add_right_cancel_iff] at this
    show histSum s.statusCodes ≤ s.count + atCount (s.workers.set w _)
    omega
  | handler hsig hh => exact hI
  | spawn i hm hlt =>
    show histSum s.statusCodes ≤ s.count + atCount (s.workers ++ _)
    simpa [atCount, List.countP_append] using hI
  | spawned i hm hlt => exact hI
  | observed hm hc => exact hI
  | drained hm hw => exact hI
  | total hm => exact hI
  | hist hm => exact hI

theorem metrics_run {f : Flags} {as : List Action} {s : State} {evs : List Event}
    (h : run f initState as = some (s, evs)) :
    histSum s.statusCodes ≤ s.count + atCount s.workers :=
  run_init (fun s _ => histSum s.statusCodes ≤ s.count + atCount s.workers)
    (by simp [initState, histSum, atCount]) (fun _ _ _ _ hI _ hs => metrics_step hI hs) h

/-! ## Ticks and attempts -/

theorem ticks_frame {f : Flags} {s : State} {evs : List Event} {s1 : State} {ev : List Event}
    (hT : Ticks f s evs)
    (a : ∀ w, paced f = true →
      attempts w ev + (if atBuild s1.workers w then 1 else 0)
        = ticksTaken w ev + (if atBuild s.workers w then 1 else 0))
    (b : ∀ w, paced f = false → ticksTaken w ev = 0)
    (c : ∀ w, ticksTaken w ev + (if hasTick s1.workers w then 1 else 0)
        ≤ ticksFired w ev + (if hasTick s.workers w then 1 else 0)) :
    Ticks f s1 (evs ++ ev) := by
  obtain ⟨t1, t2, t3⟩ := hT
  constructor
  · intro w hp
    have := t1 w hp
    have := a w hp
    simp only [attempts, ticksTaken, List.count_append] at *
    omega
  · intro w hp
    have := t2 w hp
    have := b w hp
    simp only [ticksTaken, List.count_append] at *
    omega
  · intro w
    have := t3 w
    have := c w
    simp only [ticksTaken, ticksFired, List.count_append] at *
    omega

theorem atBuild_set_ne {ws : List Worker} {w0 w : Nat} (wk1 : Worker) (h : w0 ≠ w) :
    atBuild (ws.set w0 wk1) w = atBuild ws w := by
  simp [atBuild, List.getElem?_set_ne h]

theorem hasTick_set_ne {ws : List Worker} {w0 w : Nat} (wk1 : Worker) (h : w0 ≠ w) :
    hasTick (ws.set w0 wk1) w = hasTick ws w := by
  simp [hasTick, List.getElem?_set_ne h]

theorem atBuild_set_self {ws : List Worker} {w : Nat} {wk : Worker} (wk1 : Worker)
    (h : ws[w]? = some wk) : atBuild (ws.set w wk1) w = decide (wk1.pc = .build) := by
  have hl : w < ws.length := (List.getElem?_eq_some.1 h).1
  simp [atBuild, List.getElem?_set_self hl]

theorem hasTick_set_self {ws : List Worker} {w : Nat} {wk : Worker} (wk1 : Worker)
    (h : ws[w]? = some wk) : hasTick (ws.set w wk1) w = wk1.tick := by
  have hl : w < ws.length := (List.getElem?_eq_some.1 h).1
  simp [hasTick, List.getElem?_set_self hl]

theorem atBuild_self {ws : List Worker} {w : Nat} {wk : Worker} (h : ws[w]? = some wk) :
    atBuild ws w = decide (wk.pc = .build) := by
  simp [atBuild, h]

theorem hasTick_self {ws : List Worker} {w : Nat} {wk : Worker} (h : ws[w]? = some wk) :
    hasTick ws w = wk.tick := by
  simp [hasTick, h]

theorem getElem?_append_top (ws : List Worker) (x : Worker) (w : Nat) :
    (ws ++ [x])[w]? = if w = ws.length then some x else ws[w]? := by
  by_cases h : w < ws.length
  · rw [List.getElem?_append_left h, if_neg (by omega)]
  · by_cases h2 : w = ws.length
    · subst h2; simp
    · rw [if_neg h2, List.getElem?_eq_none (by simp; omega), List.getElem?_eq_none (by omega)]

theorem atBuild_append_top (ws : List Worker) (w : Nat) :
    atBuild (ws ++ [{ pc := .top, tick := false }]) w = atBuild ws w := by
  simp only [atBuild, getElem?_append_top]
  by_cases h : w = ws.length
  · subst h; simp
  · simp [h]

theorem hasTick_append_top (ws : List Worker) (w : Nat) :
    hasTick (ws ++ [{ pc := .top, tick := false }]) w = hasTick ws w := by
  simp only [hasTick, getElem?_append_top]
  by_cases h : w = ws.length
  · subst h; simp
  · simp [h]

theorem ticks_step_worker {f : Flags} {s : State} {evs : List Event} {w : Nat} {wk : Worker}
    {s2 : State} {wk1 : Worker} {ev : List Event}
    (hT : Ticks f s evs) (hget : s.workers[w]? = some wk) (hw : WStep f w s wk s2 wk1 ev) :
    Ticks f { s2 with workers := s2.workers.set w wk1 } (evs ++ ev) := by
  have hws : s2.workers = s.workers := by cases hw <;> rfl
  refine ticks_frame hT ?_ ?_ ?_
  · intro w1 hp
    show attempts w1 ev + (if atBuild (s2.workers.set w wk1) w1 then 1 else 0) = _
    rw [hws]
    by_cases hw1 : w = w1
    · subst hw1
      rw [atBuild_set_self wk1 hget, atBuild_self hget]
      cases hw <;> simp_all [attempts, ticksTaken]
    · rw [atBuild_set_ne wk1 hw1]
      cases hw <;> simp [attempts, ticksTaken, List.count_cons, hw1]
  · intro w1 hp
    cases hw <;> simp_all [ticksTaken]
  · intro w1
    show ticksTaken w1 ev + (if hasTick (s2.workers.set w wk1) w1 then 1 else 0) ≤ _
    rw [hws]
    by_cases hw1 : w = w1
    · subst hw1
      rw [hasTick_set_self wk1 hget, hasTick_self hget]
      cases hw <;> simp_all [ticksFired, ticksTaken]
    · rw [hasTick_set_ne wk1 hw1]
      cases hw <;> simp [ticksFired, ticksTaken, List.count_cons, hw1]

theorem ticks_step {f : Flags} {s : State} {evs : List Event} {s1 : State} {ev : List Event}
    (hT : Ticks f s evs) (hs : Step f s s1 ev) : Ticks f s1 (evs ++ ev) := by
  cases hs with
  | worker w wk s2 wk1 ev hget hw => exact ticks_step_worker hT hget hw
  | interrupt =>
    exact ticks_frame hT (by simp [attempts, ticksTaken]) (by simp [ticksTaken])
      (by simp [ticksTaken, ticksFired])
  | progress hm ht =>
    exact ticks_frame hT (by simp [attempts, ticksTaken]) (by simp [ticksTaken])
      (by simp [ticksTaken, ticksFired])
  | reporterTick hm =>
    exact ticks_frame hT (by simp [attempts, ticksTaken])
      (by simp [ticksTaken]) (by simp [ticksTaken, ticksFired])
  | handler hsig hh =>
    exact ticks_frame hT (by simp [attempts, ticksTaken, cancel])
      (by simp [ticksTaken]) (by simp [ticksTaken, ticksFired, cancel])
  | spawned i hm hlt =>
    exact ticks_frame hT (by simp [attempts, ticksTaken])
      (by simp [ticksTaken]) (by simp [ticksTaken, ticksFired])
  | observed hm hc =>
    exact ticks_frame hT (by simp [attempts, ticksTaken])
      (by simp [ticksTaken]) (by simp [ticksTaken, ticksFired])
  | drained hm hw =>
    exact ticks_frame hT (by simp [attempts, ticksTaken])
      (by simp [ticksTaken]) (by simp [ticksTaken, ticksFired])
  | total hm =>
    exact ticks_frame hT (by simp [attempts, ticksTaken])
      (by simp [ticksTaken]) (by simp [ticksTaken, ticksFired])
  | hist hm =>
    exact ticks_frame hT (by simp [attempts, ticksTaken, cancel])
      (by simp [ticksTaken]) (by simp [ticksTaken, ticksFired, cancel])
  | spawn i hm hlt =>
    exact ticks_frame hT (by simp [attempts, ticksTaken, atBuild_append_top])
      (by simp [ticksTaken]) (by simp [ticksTaken, ticksFired, hasTick_append_top])
  | tickFire w wk hp hget hpc =>
    refine ticks_frame hT ?_ ?_ ?_
    · intro w1 _
      show _ + (if atBuild (s.workers.set w _) w1 then 1 else 0) = _
      by_cases hw1 : w = w1
      · subst hw1
        rw [atBuild_set_self _ hget, atBuild_self hget]
        simp [attempts, ticksTaken]
      · rw [atBuild_set_ne _ hw1]
        simp [attempts, ticksTaken]
    · intro w1 hp1
      simp [hp] at hp1
    · intro w1
      show _ + (if hasTick (s.workers.set w _) w1 then 1 else 0) ≤ _
      by_cases hw1 : w = w1
      · subst hw1
        rw [hasTick_set_self _ hget, hasTick_self hget]
        simp [ticksFired, ticksTaken]
      · rw [hasTick_set_ne _ hw1]
        simp [ticksFired, ticksTaken, hw1]

theorem ticks_run {f : Flags} {as : List Action} {s : State} {evs : List Event}
    (h : run f initState as = some (s, evs)) : Ticks f s evs :=
  run_init (Ticks f)
    (by constructor <;> simp [initState, attempts, ticksTaken, ticksFired, atBuild, hasTick])
    (fun _ _ _ _ hI _ hs => ticks_step hI hs) h

/-! ## Keys of the histogram -/

theorem keys_frame {s : State} {evs : List Event} {s1 : State} {ev : List Event}
    (hK : Keys s evs) (h1 : s1.statusCodes = s.statusCodes)
    (h2 : ∀ w wk c, s1.workers[w]? = some wk → wk.pc = .record c →
      (∃ wk0, s.workers[w]? = some wk0 ∧ wk0.pc = .record c) ∨ Event.response w c ∈ ev) :
    Keys s1 (evs ++ ev) := by
  obtain ⟨k1, k2⟩ := hK
  constructor
  · intro c hc
    rw [h1] at hc
    obtain ⟨w, hw⟩ := k1 c hc
    exact ⟨w, List.mem_append_left _ hw⟩
  · intro w wk c hg hp
    rcases h2 w wk c hg hp with ⟨wk0, hg0, hp0⟩ | h
    · exact List.mem_append_left _ (k2 w wk0 c hg0 hp0)
    · exact List.mem_append_right _ h

theorem getElem?_set_some {ws : List Worker} {w w1 : Nat} {wk1 x : Worker}
    (h : (ws.set w wk1)[w1]? = some x) : (w = w1 ∧ x = wk1) ∨ (w ≠ w1 ∧ ws[w1]? = some x) := by
  by_cases hw : w = w1
  · subst hw
    left
    rw [List.getElem?_set_self'] at h
    cases hg : ws[w]? with
    | none => simp [hg] at h
    | some y => simp [hg] at h; exact ⟨rfl, h.symm⟩
  · right
    rw [List.getElem?_set_ne hw] at h
    exact ⟨hw, h⟩

/-- A worker step that does not end in `record` and keeps the map. -/
theorem keys_worker_plain {s : State} {evs : List Event} {w : Nat} {s2 : State}
    {wk1 : Worker} {ev : List Event} (hK : Keys s evs)
    (h1 : s2.statusCodes = s.statusCodes) (h2 : s2.workers = s.workers)
    (h3 : ∀ c, wk1.pc = .record c → Event.response w c ∈ ev) :
    Keys { s2 with workers := s2.workers.set w wk1 } (evs ++ ev) := by
  refine keys_frame hK h1 ?_
  intro w1 x c hg hp
  have hg1 : (s.workers.set w wk1)[w1]? = some x := by rw [← h2]; exact hg
  rcases getElem?_set_some hg1 with ⟨rfl, rfl⟩ | ⟨_, hx⟩
  · exact Or.inr (h3 c hp)
  · exact Or.inl ⟨x, hx, hp⟩

theorem isSome_get_recordStatus {h : Hist} {c k : Int}
    (hk : (Hist.get (recordStatus h c) k).isSome = true) :
    k = c ∨ (Hist.get h k).isSome = true := by
  by_cases e : k = c
  · exact Or.inl e
  · rw [get_recordStatus_other h e] at hk
    exact Or.inr hk

theorem keys_step {f : Flags} {s : State} {evs : List Event} {s1 : State} {ev : List Event}
    (hK : Keys s evs) (hs : Step f s s1 ev) : Keys s1 (evs ++ ev) := by
  cases hs with
  | worker w wk s2 wk1 ev hget hw =>
    cases hw with
    | leave hpc hc => exact keys_worker_plain hK rfl rfl (by simp)
    | takeTick hpc hp ht => exact keys_worker_plain hK rfl rfl (by simp)
    | pass hpc hp hc => exact keys_worker_plain hK rfl rfl (by simp)
    | built hpc => exact keys_worker_plain hK rfl rfl (by simp)
    | buildFail hpc => exact keys_worker_plain hK rfl rfl (by simp)
    | sendFail hpc => exact keys_worker_plain hK rfl rfl (by simp)
    | responded c hpc => exact keys_worker_plain hK rfl rfl (by simp)
    | counted hpc => exact keys_worker_plain hK rfl rfl (by simp)
    | recorded c hpc =>
      obtain ⟨k1, k2⟩ := hK
      have hc := k2 w wk c hget hpc
      constructor
      · intro k hk
        rcases isSome_get_recordStatus hk with rfl | hk
        · exact ⟨w, by simpa using hc⟩
        · obtain ⟨w0, h0⟩ := k1 k hk
          exact ⟨w0, by simpa using h0⟩
      · intro w1 x k hg hp
        rcases getElem?_set_some hg with ⟨rfl, rfl⟩ | ⟨_, hx⟩
        · simp at hp
        · simpa using k2 w1 x k hx hp
  | interrupt => exact keys_frame hK rfl (fun w wk c hg hp => Or.inl ⟨wk, hg, hp⟩)
  | progress hm ht => exact keys_frame hK rfl (fun w wk c hg hp => Or.inl ⟨wk, hg, hp⟩)
  | reporterTick hm => exact keys_frame hK rfl (fun w wk c hg hp => Or.inl ⟨wk, hg, hp⟩)
  | handler hsig hh => exact keys_frame hK rfl (fun w wk c hg hp => Or.inl ⟨wk, hg, hp⟩)
  | spawned i hm hlt => exact keys_frame hK rfl (fun w wk c hg hp => Or.inl ⟨wk, hg, hp⟩)
  | observed hm hc => exact keys_frame hK rfl (fun w wk c hg hp => Or.inl ⟨wk, hg, hp⟩)
  | drained hm hw => exact keys_frame hK rfl (fun w wk c hg hp => Or.inl ⟨wk, hg, hp⟩)
  | total hm => exact keys_frame hK rfl (fun w wk c hg hp => Or.inl ⟨wk, hg, hp⟩)
  | hist hm => exact keys_frame hK rfl (fun w wk c hg hp => Or.inl ⟨wk, hg, hp⟩)
  | spawn i hm hlt =>
    refine keys_frame hK rfl ?_
    intro w x c hg hp
    have hg1 : (s.workers ++ [{ pc := .top, tick := false }])[w]? = some x := hg
    rw [getElem?_append_top] at hg1
    by_cases hw : w = s.workers.length
    · rw [if_pos hw] at hg1
      simp only [Option.some.injEq] at hg1
      subst hg1
      simp at hp
    · rw [if_neg hw] at hg1
      exact Or.inl ⟨x, hg1, hp⟩
  | tickFire w wk hp hget hpc =>
    refine keys_frame hK rfl ?_
    intro w1 x c hg hp1
    rcases getElem?_set_some hg with ⟨rfl, rfl⟩ | ⟨_, hx⟩
    · exact Or.inl ⟨wk, hget, hp1⟩
    · exact Or.inl ⟨x, hx, hp1⟩

theorem keys_run {f : Flags} {as : List Action} {s : State} {evs : List Event}
    (h : run f initState as = some (s, evs)) : Keys s evs :=
  run_init Keys (by constructor <;> simp [initState, Hist.get])
    (fun _ _ _ _ hI _ hs => keys_step hI hs) h

/-! ## Schedules -/

theorem run_append (f : Flags) :
    ∀ (as bs : List Action) (s s1 s2 : State) (e1 e2 : List Event),
      run f s as = some (s1, e1) → run f s1 bs = some (s2, e2) →
      run f s (as ++ bs) = some (s2, e1 ++ e2) := by
  intro as
  induction as with
  | nil =>
    intro bs s s1 s2 e1 e2 h1 h2
    simp only [run, Option.some.injEq, Prod.mk.injEq] at h1
    obtain ⟨rfl, rfl⟩ := h1
    simpa using h2
  | cons a as ih =>
    intro bs s s1 s2 e1 e2 h1 h2
    simp only [run] at h1
    simp only [List.cons_append, run]
    cases hs : step f s a with
    | none => simp [hs] at h1
    | some r =>
      obtain ⟨s3, ev⟩ := r
      simp only [hs] at h1
      cases hr : run f s3 as with
      | none => simp [hr] at h1
      | some r2 =>
        obtain ⟨s4, e4⟩ := r2
        simp only [hr, Option.some.injEq, Prod.mk.injEq] at h1
        obtain ⟨rfl, rfl⟩ := h1
        have e := ih bs s3 s4 s2 e4 e2 hr h2
        simp [e, List.append_assoc]

/-- The facts of a reachable state stay true along any further schedule. -/
theorem run_keeps {f : Flags} (P : State → Prop)
    (hstep : ∀ s s1 ev, P s → Step f s s1 ev → P s1) :
    ∀ (as : List Action) (s s1 : State) (evs : List Event),
      P s → run f s as = some (s1, evs) → P s1 := by
  intro as s s1 evs h0 h
  have := run_from (f := f) (fun s _ => P s) (fun s _ s1 ev hP _ hs => hstep s s1 ev hP hs)
    as s [] s1 evs h0 h
  exact this

/-! ## After the wait -/

theorem atCount_le_live (ws : List Worker) : atCount ws ≤ live ws := by
  refine List.countP_mono_left ?_
  intro wk _ h
  simp only [decide_eq_true_eq] at h
  simp [h]

theorem live_zero_iff {ws : List Worker} :
    live ws = 0 ↔ ∀ (w : Nat) (wk : Worker), ws[w]? = some wk → wk.pc = .exited := by
  constructor
  · intro h w wk hg
    by_contra hne
    have := live_pos hg hne
    omega
  · intro h
    simp only [live, List.countP_eq_zero]
    intro wk hm
    obtain ⟨w, hw⟩ := List.mem_iff_getElem?.1 hm
    simpa using h w wk hw

/-- Once every worker has returned, a step changes neither the metrics nor
the workers. -/
theorem step_drained {f : Flags} {s s1 : State} {ev : List Event}
    (hl : live s.workers = 0) (hm : ∀ i, s.main ≠ .spawn i) (hs : Step f s s1 ev) :
    s1.count = s.count ∧ s1.statusCodes = s.statusCodes ∧ s1.workers = s.workers ∧
      (∀ i, s1.main ≠ .spawn i) := by
  cases hs with
  | worker w wk s2 wk1 ev hget hw =>
    have := live_pos hget hw.running
    omega
  | tickFire w wk hp hget hpc =>
    have := live_pos hget hpc
    omega
  | spawn i hi hlt => exact absurd hi (hm i)
  | spawned i hi hlt => exact absurd hi (hm i)
  | interrupt => exact ⟨rfl, rfl, rfl, hm⟩
  | progress h1 ht => exact ⟨rfl, rfl, rfl, hm⟩
  | reporterTick h1 => exact ⟨rfl, rfl, rfl, hm⟩
  | handler hsig hh => exact ⟨rfl, rfl, rfl, hm⟩
  | observed h1 hc => exact ⟨rfl, rfl, rfl, by simp⟩
  | drained h1 hw => exact ⟨rfl, rfl, rfl, by simp⟩
  | total h1 => exact ⟨rfl, rfl, rfl, by simp⟩
  | hist h1 => exact ⟨rfl, rfl, rfl, by simp⟩

theorem run_drained {f : Flags} {as : List Action} {s s1 : State} {evs : List Event}
    (hl : live s.workers = 0) (hm : ∀ i, s.main ≠ .spawn i)
    (h : run f s as = some (s1, evs)) :
    s1.count = s.count ∧ s1.statusCodes = s.statusCodes ∧ s1.workers = s.workers := by
  have := run_keeps (f := f)
    (fun t => t.count = s.count ∧ t.statusCodes = s.statusCodes ∧ t.workers = s.workers ∧
      (∀ i, t.main ≠ .spawn i))
    (fun t t1 ev hP hs => by
      obtain ⟨p1, p2, p3, p4⟩ := hP
      have := step_drained (by rw [p3]; exact hl) p4 hs
      exact ⟨by rw [this.1, p1], by rw [this.2.1, p2], by rw [this.2.2.1, p3], this.2.2.2⟩)
    as s s1 evs ⟨rfl, rfl, rfl, hm⟩ h
  exact ⟨this.1, this.2.1, this.2.2.1⟩

/-! ## The loop body as a schedule -/

/-- Worker `w`, past the check and moving alone, takes the metrics from `m` to
`loopBody m o` and is back at the top of the loop. -/
theorem body_run (f : Flags) (s : State) (w : Nat) (wk : Worker) (o : Outcome)
    (hm : s.main ≠ .returned) (hget : s.workers[w]? = some wk) (hpc : wk.pc = .build) :
    run f s (bodyActions w o) = some
      ({ s with count := (loopBody ⟨s.count, s.statusCodes⟩ o).count,
                statusCodes := (loopBody ⟨s.count, s.statusCodes⟩ o).statusCodes,
                workers := s.workers.set w { wk with pc := .top } }, bodyEvents w o) := by
  have hl : w < s.workers.length := (List.getElem?_eq_some.1 hget).1
  cases o with
  | buildError =>
    simp [bodyActions, bodyEvents, run, step, hm, hget, workerStep, hpc, envOf, loopBody]
  | transportError =>
    simp [bodyActions, bodyEvents, run, step, hm, hget, workerStep, hpc, envOf, loopBody, hl]
  | response c =>
    simp [bodyActions, bodyEvents, run, step, hm, hget, workerStep, hpc, envOf, loopBody, hl]

/-! ## Starting the workers -/

theorem spawn_run (f : Flags) (e : Env) :
    ∀ (k : Nat) (s : State) (i : Nat), s.main = .spawn i →
      (k = 0 ∨ ((i + k : Nat) : Int) ≤ f.workers) →
      run f s (List.replicate k (.main e)) = some (afterSpawns s i k, []) := by
  intro k
  induction k with
  | zero =>
    intro s i hm _
    cases s
    simp only at hm
    simp [run, hm, afterSpawns]
  | succ k ih =>
    intro s i hm hle
    have hle : ((i + (k + 1) : Nat) : Int) ≤ f.workers := by
      rcases hle with h | h
      · omega
      · exact h
    have hlt : (i : Int) < f.workers := by push_cast at hle; omega
    have hs : step f s (.main e) = some (afterSpawns s i 1, []) := by
      simp [step, hm, mainStep, hlt, afterSpawns]
    have := ih (afterSpawns s i 1) (i + 1) rfl (Or.inr (by push_cast at hle ⊢; omega))
    simp only [List.replicate_succ, run, hs, this]
    simp only [List.append_nil, Option.some.injEq, Prod.mk.injEq, and_true]
    have e1 : i + 1 + k = i + (k + 1) := by omega
    have e2 : s.wg + 1 + (k : Int) = s.wg + ((k + 1 : Nat) : Int) := by push_cast; omega
    simp [afterSpawns, e1, e2, List.append_assoc, ← List.replicate_succ]

/-- The schedule in which `main` alone runs the spawn loop to its end. -/
theorem start_all (f : Flags) (e : Env) :
    run f initState (List.replicate (f.workers.toNat + 1) (.main e)) =
      some (allStarted f, []) := by
  have h1 := spawn_run f e f.workers.toNat initState 0 rfl (by
    by_cases h : f.workers ≤ 0
    · left; exact Int.toNat_eq_zero.2 h
    · right
      have := Int.toNat_of_nonneg (a := f.workers) (by omega)
      omega)
  have h2 : step f (afterSpawns initState 0 f.workers.toNat) (.main e) =
      some (allStarted f, []) := by
    have : ¬ ((f.workers.toNat : Int) < f.workers) := by
      have := Int.self_le_toNat f.workers
      omega
    simp [step, mainStep, this, initState, afterSpawns, allStarted]
  have h3 : run f (afterSpawns initState 0 f.workers.toNat) [.main e] =
      some (allStarted f, [] ++ []) := by
    simp only [run, h2]
  have := run_append f _ _ _ _ _ _ _ h1 h3
  simpa [List.replicate_succ', List.replicate_add] using this

/-! # The claims -/

/-! ## C1 -/

/-- C1 as stated fails: an iteration that is past the cancellation check and
whose `http.NewRequest` returns an error goes back to the top of the loop with
the counter where it was (0, not 1). -/
theorem c1_build_failure_not_counted :
    run (flagsUnpaced 1) (oneWorker .build false false) (bodyActions 0 .buildError)
        = some (oneWorker .top false false, [.newRequest 0, .buildError 0]) ∧
      (oneWorker .top false false).count ≠ (oneWorker .build false false).count + 1 ∧
      (loopBody emptyMetrics .buildError).count ≠ emptyMetrics.count + 1 := by
  decide

/-- C1 (amended): a worker iteration that is past the cancellation check runs
to the top of the loop and, with no other goroutine moving meanwhile, adds
exactly one to the counter when the request was built, whether a response
came back or the transport failed; when `http.NewRequest` fails the iteration
ends with the counter unchanged. -/
theorem c1_body_count (f : Flags) (s : State) (w : Nat) (wk : Worker) (o : Outcome)
    (hm : s.main ≠ .returned) (hget : s.workers[w]? = some wk) (hpc : wk.pc = .build) :
    ∃ s1, run f s (bodyActions w o) = some (s1, bodyEvents w o) ∧
      s1.count = (if o = .buildError then s.count else s.count + 1) ∧
      s1.workers[w]? = some { wk with pc := .top } := by
  have hl : w < s.workers.length := (List.getElem?_eq_some.1 hget).1
  refine ⟨_, body_run f s w wk o hm hget hpc, ?_, ?_⟩
  · cases o <;> simp [loopBody]
  · simp [hl]

/-- A transport failure past the check: the counter goes from 0 to 1. -/
theorem c1_body_count_witness :
    (oneWorker .build false false).main ≠ .returned ∧
      (oneWorker .build false false).workers[0]? = some { pc := .build, tick := false } ∧
      ∃ s1, run (flagsUnpaced 1) (oneWorker .build false false) (bodyActions 0 .transportError)
          = some (s1, bodyEvents 0 .transportError) ∧
        s1.count = (if Outcome.transportError = .buildError then
            (oneWorker .build false false).count
          else (oneWorker .build false false).count + 1) ∧
        s1.workers[0]? = some { ({ pc := .build, tick := false } : Worker) with pc := .top } :=
  ⟨by decide, by decide,
    c1_body_count (flagsUnpaced 1) (oneWorker .build false false) 0
      { pc := .build, tick := false } .transportError (by decide) (by decide) rfl⟩

/-! ## C2 -/

/-- C2 as stated fails: after one worker has updated the histogram and before
it has incremented the counter, the histogram sums to 1 and the counter is 0. -/
theorem c2_histogram_ahead_of_count :
    run (flagsUnpaced 1) initState schedRecorded
        = some (stateRecorded, [.newRequest 0, .send 0, .response 0 200]) ∧
      ¬ histSum stateRecorded.statusCodes ≤ stateRecorded.count := by
  decide

/-- C2 (amended): in every reachable state the histogram sum is at most the
counter plus the number of workers standing at the counter increment of line
127; that number is at most the number of workers, so the sum never exceeds
the counter by more than N, and the sum is at most the counter whenever no
worker stands there, in particular from the end of `wg.Wait()` on. -/
theorem c2_histogram_sum_bound (f : Flags) (as : List Action) (s : State) (evs : List Event)
    (h : run f initState as = some (s, evs)) :
    histSum s.statusCodes ≤ s.count + atCount s.workers ∧
      atCount s.workers ≤ s.workers.length ∧
      (s.workers.length : Int) ≤ max f.workers 0 ∧
      (atCount s.workers = 0 → histSum s.statusCodes ≤ s.count) ∧
      (s.main = .total ∨ s.main = .hist ∨ s.main = .returned →
        histSum s.statusCodes ≤ s.count) := by
  have h1 := metrics_run h
  have hc := core_run h
  refine ⟨h1, atCount_le_length _, hc.lenLe, ?_, ?_⟩
  · intro h0; omega
  · intro hm
    have := hc.drained hm
    have := atCount_le_live s.workers
    omega

/-- The bound is met with equality right after a histogram update. -/
theorem c2_histogram_sum_bound_witness :
    run (flagsUnpaced 1) initState schedRecorded
        = some (stateRecorded, [.newRequest 0, .send 0, .response 0 200]) ∧
      histSum stateRecorded.statusCodes ≤ stateRecorded.count + atCount stateRecorded.workers :=
  ⟨by decide,
    (c2_histogram_sum_bound (flagsUnpaced 1) schedRecorded stateRecorded
      [.newRequest 0, .send 0, .response 0 200] (by decide)).1⟩


/-! ## C3 -/

theorem runWorker_cons (m : Metrics) (o : Outcome) (os : List Outcome) :
    runWorker m (o :: os) = runWorker (loopBody m o) os := rfl

theorem runWorker_count :
    ∀ (os : List Outcome) (m : Metrics), (∀ o ∈ os, o ≠ .buildError) →
      (runWorker m os).count = m.count + os.length := by
  intro os
  induction os with
  | nil => intro m _; simp [runWorker]
  | cons o os ih =>
    intro m h
    rw [runWorker_cons, ih _ (fun x hx => h x (List.mem_cons_of_mem _ hx))]
    have ho : o ≠ .buildError := h o (List.mem_cons_self _ _)
    cases o with
    | buildError => exact absurd rfl ho
    | transportError => simp [loopBody]; omega
    | response c => simp [loopBody]; omega

theorem runWorker_histSum :
    ∀ (os : List Outcome) (m : Metrics),
      histSum (runWorker m os).statusCodes = histSum m.statusCodes + responses os := by
  intro os
  induction os with
  | nil => intro m; simp [runWorker, responses]
  | cons o os ih =>
    intro m
    rw [runWorker_cons, ih]
    cases o with
    | buildError => simp [loopBody, responses]
    | transportError => simp [loopBody, responses]
    | response c => simp [loopBody, responses, histSum_recordStatus]; omega

theorem runWorker_get (c : Int) :
    ∀ (os : List Outcome) (m : Metrics),
      Hist.get (runWorker m os).statusCodes c =
        if os.count (.response c) = 0 then Hist.get m.statusCodes c
        else some ((Hist.get m.statusCodes c).getD 0 + os.count (.response c)) := by
  intro os
  induction os with
  | nil => intro m; simp [runWorker]
  | cons o os ih =>
    intro m
    rw [runWorker_cons, ih]
    cases o with
    | buildError => simp [loopBody, List.count_cons]
    | transportError => simp [loopBody, List.count_cons]
    | response k =>
      by_cases hk : k = c
      · subst hk
        simp only [loopBody, get_recordStatus_same, List.count_cons_self, Option.getD_some]
        split
        · simp [*]
        · simp; omega
      · have hne : c ≠ k := fun e => hk e.symm
        have : (Outcome.response k == Outcome.response c) = false := by simp [hk]
        simp only [loopBody, get_recordStatus_other _ hne, List.count_cons, this]
        simp

theorem length_eq_responses_add :
    ∀ (os : List Outcome), (∀ o ∈ os, o ≠ .buildError) →
      os.length = responses os + os.count .transportError := by
  intro os
  induction os with
  | nil => intro _; simp [responses]
  | cons o os ih =>
    intro h
    have := ih (fun x hx => h x (List.mem_cons_of_mem _ hx))
    have ho : o ≠ .buildError := h o (List.mem_cons_self _ _)
    cases o with
    | buildError => exact absurd rfl ho
    | transportError =>
      simp only [responses, List.countP_cons, List.count_cons, List.length_cons] at *
      simp; omega
    | response c =>
      simp only [responses, List.countP_cons, List.count_cons, List.length_cons] at *
      simp; omega

/-- C3: for every list of attempt outcomes without construction failures that
one worker processes from empty metrics, the counter ends at the length of the
list, the histogram holds for every status code the number of responses with
that code and no entry for a code that never came, the histogram sum is at
most the counter, and the counter minus the histogram sum is the number of
transport failures. -/
theorem c3_single_worker_totals (os : List Outcome) (h : ∀ o ∈ os, o ≠ .buildError) :
    (runWorker emptyMetrics os).count = os.length ∧
      (∀ c, Hist.get (runWorker emptyMetrics os).statusCodes c =
        if os.count (.response c) = 0 then none else some (os.count (.response c))) ∧
      histSum (runWorker emptyMetrics os).statusCodes ≤ (runWorker emptyMetrics os).count ∧
      (runWorker emptyMetrics os).count - histSum (runWorker emptyMetrics os).statusCodes
        = os.count .transportError := by
  have h1 := runWorker_count os emptyMetrics h
  have h2 := runWorker_histSum os emptyMetrics
  have h3 := length_eq_responses_add os h
  simp only [emptyMetrics, histSum, Nat.zero_add] at h1 h2
  refine ⟨by simpa [emptyMetrics] using h1, ?_, ?_, ?_⟩
  · intro c
    rw [runWorker_get]
    simp [emptyMetrics, Hist.get]
  · simp only [emptyMetrics]; omega
  · simp only [emptyMetrics]; omega

/-- Ten attempts alternating 500 and a connection error give a counter of 10
and the histogram `{500: 5}`; three responses of 200 give 3 and `{200: 3}`. -/
theorem c3_single_worker_totals_witness :
    (∀ o ∈ altTen, o ≠ .buildError) ∧
      runWorker emptyMetrics altTen = { count := 10, statusCodes := [(500, 5)] } ∧
      runWorker emptyMetrics (List.replicate 3 (.response 200))
        = { count := 3, statusCodes := [(200, 3)] } ∧
      ((runWorker emptyMetrics altTen).count = altTen.length ∧
        (∀ c, Hist.get (runWorker emptyMetrics altTen).statusCodes c =
          if altTen.count (.response c) = 0 then none else some (altTen.count (.response c))) ∧
        histSum (runWorker emptyMetrics altTen).statusCodes
          ≤ (runWorker emptyMetrics altTen).count ∧
        (runWorker emptyMetrics altTen).count
            - histSum (runWorker emptyMetrics altTen).statusCodes
          = altTen.count .transportError) :=
  ⟨by decide, by decide, by decide, c3_single_worker_totals altTen (by decide)⟩

/-! ## C8 -/

theorem mem_keys_recordStatus {h : Hist} {c k : Int}
    (hk : k ∈ (recordStatus h c).map Prod.fst) : k = c ∨ k ∈ h.map Prod.fst := by
  induction h with
  | nil => simpa [recordStatus] using hk
  | cons a t ih =>
    obtain ⟨k1, v⟩ := a
    by_cases e : k1 = c
    · simp only [recordStatus, e, if_true, List.map_cons, List.mem_cons] at hk ⊢
      rcases hk with hk | hk
      · exact Or.inl hk
      · exact Or.inr (Or.inr hk)
    · simp only [recordStatus, e, if_false, List.map_cons, List.mem_cons] at hk ⊢
      rcases hk with hk | hk
      · exact Or.inr (Or.inl hk)
      · rcases ih hk with h1 | h1
        · exact Or.inl h1
        · exact Or.inr (Or.inr h1)

theorem recordStatus_nodup (h : Hist) (c : Int) (hn : (h.map Prod.fst).Nodup) :
    ((recordStatus h c).map Prod.fst).Nodup := by
  induction h with
  | nil => simp [recordStatus]
  | cons a t ih =>
    obtain ⟨k1, v⟩ := a
    simp only [List.map_cons, List.nodup_cons] at hn
    by_cases e : k1 = c
    · simp only [recordStatus, e, if_true, List.map_cons, List.nodup_cons]
      rw [e] at hn
      exact hn
    · simp only [recordStatus, e, if_false, List.map_cons, List.nodup_cons]
      refine ⟨?_, ih hn.2⟩
      intro hm
      rcases mem_keys_recordStatus hm with h1 | h1
      · exact e h1
      · exact hn.1 h1

theorem nodup_step {f : Flags} {s s1 : State} {ev : List Event}
    (hn : (s.statusCodes.map Prod.fst).Nodup) (hs : Step f s s1 ev) :
    (s1.statusCodes.map Prod.fst).Nodup := by
  cases hs with
  | worker w0 wk s2 wk1 ev hget hw =>
    cases hw with
    | recorded c hpc => exact recordStatus_nodup _ c hn
    | leave hpc hc => exact hn
    | takeTick hpc hp ht => exact hn
    | pass hpc hp hc => exact hn
    | built hpc => exact hn
    | buildFail hpc => exact hn
    | sendFail hpc => exact hn
    | responded c hpc => exact hn
    | counted hpc => exact hn
  | tickFire w0 wk hp hget hpc0 => exact hn
  | spawn i hi hlt => exact hn
  | interrupt => exact hn
  | progress h1 ht => exact hn
  | reporterTick h1 => exact hn
  | handler hsig hh => exact hn
  | spawned i hi hlt => exact hn
  | observed h1 h2 => exact hn
  | drained h1 hw => exact hn
  | total h1 => exact hn
  | hist h1 => exact hn

theorem nodup_run {f : Flags} {as : List Action} {s : State} {evs : List Event}
    (h : run f initState as = some (s, evs)) : (s.statusCodes.map Prod.fst).Nodup :=
  run_keeps (f := f) (fun t => (t.statusCodes.map Prod.fst).Nodup)
    (fun _ _ _ hP hs => nodup_step hP hs) as initState s evs (by simp [initState]) h

/-- C8: `statusCodes[c]++` sets the entry of `c` to its old value (zero when
absent) plus one and leaves every other entry as it was, for every integer
`c` alike; a response with status `c` does exactly this to the histogram, a
transport failure and a construction failure leave the histogram as it was;
and in every reachable state the histogram has one entry per key and each of
its keys is a status that some call of `client.Do` returned. -/
theorem c8_status_recording :
    (∀ (h : Hist) (c : Int),
        Hist.get (recordStatus h c) c = some ((Hist.get h c).getD 0 + 1)) ∧
      (∀ (h : Hist) (c k : Int), k ≠ c → Hist.get (recordStatus h c) k = Hist.get h k) ∧
      (∀ (m : Metrics) (c : Int),
        (loopBody m (.response c)).statusCodes = recordStatus m.statusCodes c) ∧
      (∀ m : Metrics, (loopBody m .transportError).statusCodes = m.statusCodes) ∧
      (∀ m : Metrics, (loopBody m .buildError).statusCodes = m.statusCodes) ∧
      (∀ (f : Flags) (as : List Action) (s : State) (evs : List Event),
        run f initState as = some (s, evs) →
        (s.statusCodes.map Prod.fst).Nodup ∧
          ∀ c, (Hist.get s.statusCodes c).isSome = true → ∃ w, Event.response w c ∈ evs) :=
  ⟨get_recordStatus_same, fun h _ _ hne => get_recordStatus_other h hne,
    fun _ _ => rfl, fun _ => rfl, fun _ => rfl,
    fun _ _ _ _ h => ⟨nodup_run h, (keys_run h).inMap⟩⟩

/-- After one request answered with 200 the key 200 is in the histogram and the
response is among the events. -/
theorem c8_status_recording_witness :
    run (flagsUnpaced 1) initState schedCounted
        = some (stateCounted, [.newRequest 0, .send 0, .response 0 200]) ∧
      (Hist.get stateCounted.statusCodes 200).isSome = true ∧
      ∃ w, Event.response w 200 ∈ [Event.newRequest 0, Event.send 0, Event.response 0 200] :=
  ⟨by decide, by decide,
    (c8_status_recording.2.2.2.2.2 (flagsUnpaced 1) schedCounted stateCounted
      [.newRequest 0, .send 0, .response 0 200] (by decide)).2 200 (by decide)⟩


/-! ## C4 -/

theorem isRunning_of_get {s : State} {w : Nat} {x : Worker} (h : s.workers[w]? = some x)
    (hx : x.pc ≠ .exited) : isRunning s w = true := by
  simp [isRunning, h, hx]

theorem get_of_isRunning {s : State} {w : Nat} (h : isRunning s w = true) :
    ∃ x, s.workers[w]? = some x ∧ x.pc ≠ .exited := by
  unfold isRunning at h
  split at h
  · rename_i x hx
    exact ⟨x, hx, by simpa using h⟩
  · simp at h

theorem get_set_of_get {ws : List Worker} {w0 w : Nat} {x : Worker} (wk1 : Worker)
    (h : ws[w]? = some x) :
    (ws.set w0 wk1)[w]? = some (if w0 = w then wk1 else x) := by
  have hl : w < ws.length := (List.getElem?_eq_some.1 h).1
  by_cases e : w0 = w
  · subst e; simp [hl]
  · simp [List.getElem?_set_ne e, h, e]

/-- A step taken while the context is live leaves every running worker
running. -/
theorem step_keeps_running {f : Flags} {s s1 : State} {ev : List Event}
    (hs : Step f s s1 ev) (hc : s.cancelled = false) (w : Nat)
    (hr : isRunning s w = true) : isRunning s1 w = true := by
  obtain ⟨x, hx, hpc⟩ := get_of_isRunning hr
  cases hs with
  | worker w0 wk s2 wk1 ev hget hw =>
    have hws : s2.workers = s.workers := by cases hw <;> rfl
    have hk : wk1.pc ≠ .exited := by
      cases hw <;> simp_all
    have hg : (s2.workers.set w0 wk1)[w]? = some (if w0 = w then wk1 else x) := by
      rw [hws]; exact get_set_of_get wk1 hx
    refine isRunning_of_get hg ?_
    split
    · exact hk
    · exact hpc
  | tickFire w0 wk hp hget hpc0 =>
    have hg : (s.workers.set w0 { wk with tick := true })[w]? =
        some (if w0 = w then { wk with tick := true } else x) :=
      get_set_of_get { wk with tick := true } hx
    refine isRunning_of_get hg ?_
    split
    · exact hpc0
    · exact hpc
  | spawn i hi hlt =>
    have hl : w < s.workers.length := (List.getElem?_eq_some.1 hx).1
    have hg : (s.workers ++ [{ pc := .top, tick := false }])[w]? = some x := by
      rw [List.getElem?_append_left hl]; exact hx
    exact isRunning_of_get hg hpc
  | interrupt => exact isRunning_of_get hx hpc
  | progress h1 ht => exact isRunning_of_get hx hpc
  | reporterTick h1 => exact isRunning_of_get hx hpc
  | handler hsig hh => exact isRunning_of_get hx hpc
  | spawned i hi hlt => exact isRunning_of_get hx hpc
  | observed h1 h2 => exact isRunning_of_get hx hpc
  | drained h1 hw => exact isRunning_of_get hx hpc
  | total h1 => exact isRunning_of_get hx hpc
  | hist h1 => exact isRunning_of_get hx hpc

theorem isExited_not_running {s : State} {w : Nat} (h : isExited s w = true) :
    isRunning s w = false := by
  unfold isExited at h
  unfold isRunning
  split at h
  · rename_i x hx
    simp only [decide_eq_true_eq] at h
    simp [hx, h]
  · simp at h

/-- C4: every step taken while the cancellation signal is not set leaves every
running worker running, whatever the step is and however the attempt of the
worker turns out; so a worker that is found exited after a step in which it
was running took that step with the signal set. -/
theorem c4_exit_only_when_cancelled (f : Flags) (s : State) (a : Action) (s1 : State)
    (ev : List Event) (h : step f s a = some (s1, ev)) (w : Nat)
    (hr : isRunning s w = true) :
    (s.cancelled = false → isRunning s1 w = true) ∧
      (isExited s1 w = true → s.cancelled = true) := by
  have hs := (step_sound h).2
  have key : s.cancelled = false → isRunning s1 w = true :=
    fun hc => step_keeps_running hs hc w hr
  refine ⟨key, ?_⟩
  intro he
  cases hc : s.cancelled with
  | true => rfl
  | false =>
    have h1 := key hc
    rw [isExited_not_running he] at h1
    exact absurd h1 (by simp)

/-- A transport failure with the context live: the worker goes on to the
counter increment and is still running. -/
theorem c4_exit_only_when_cancelled_witness :
    step (flagsUnpaced 1) (oneWorker .send false false)
        (.worker 0 { pickTick := true, buildOk := true, resp := none })
      = some (oneWorker .count false false, [.send 0, .sendError 0]) ∧
      isRunning (oneWorker .send false false) 0 = true ∧
      (oneWorker .send false false).cancelled = false ∧
      isRunning (oneWorker .count false false) 0 = true :=
  ⟨by decide, by decide, by decide,
    (c4_exit_only_when_cancelled (flagsUnpaced 1) (oneWorker .send false false)
      (.worker 0 { pickTick := true, buildOk := true, resp := none })
      (oneWorker .count false false) [.send 0, .sendError 0] (by decide) 0 (by decide)).1
      (by decide)⟩

/-! ## C6 -/

/-- C6 as stated fails in the paced case with a tick pending: the context is
cancelled and worker 0 stands at the top of its loop, yet its `select` may
take the tick, and then the iteration sends a request, records the status and
increments the counter, and the worker has not exited. -/
theorem c6_tick_taken_after_cancel :
    run (flagsPaced 1) initState schedCancelled = some (stateCancelled, eventsCancelled) ∧
      stateCancelled.cancelled = true ∧
      stateCancelled.workers = [{ pc := .top, tick := true }] ∧
      run (flagsPaced 1) stateCancelled schedLate
        = some (stateLate, [.tick 0, .newRequest 0, .send 0, .response 0 200]) ∧
      stateLate.count = stateCancelled.count + 1 ∧
      isExited stateLate 0 = false := by
  decide

/-- C6 (amended): a worker at the top of an iteration with the cancellation
signal set exits without sending a request and without touching the counter
or the histogram in the unpaced configuration, in the paced configuration
when no tick is pending, and in the paced configuration with a tick pending
when its `select` takes the cancellation case; when the `select` takes the
pending tick instead, the worker consumes it and goes on to one more attempt. -/
theorem c6_top_of_iteration_cancelled (f : Flags) (s : State) (w : Nat) (wk : Worker) (e : Env)
    (hm : s.main ≠ .returned) (hget : s.workers[w]? = some wk) (hpc : wk.pc = .top)
    (hc : s.cancelled = true) :
    ((paced f = false ∨ wk.tick = false ∨ e.pickTick = false) →
        ∃ s1, step f s (.worker w e) = some (s1, []) ∧ s1.count = s.count ∧
          s1.statusCodes = s.statusCodes ∧ isExited s1 w = true) ∧
      ((paced f = true ∧ wk.tick = true ∧ e.pickTick = true) →
        step f s (.worker w e) = some
          ({ s with workers := s.workers.set w { wk with pc := .build, tick := false } },
            [.tick w])) := by
  have hl : w < s.workers.length := (List.getElem?_eq_some.1 hget).1
  constructor
  · intro h
    refine ⟨{ s with wg := s.wg - 1, workers := s.workers.set w { wk with pc := .exited } },
      ?_, rfl, rfl, ?_⟩
    · rcases h with h | h | h
      · simp [step, hm, hget, workerStep, hpc, h, hc, workerReturn]
      · cases hp : paced f <;> simp [step, hm, hget, workerStep, hpc, h, hc, workerReturn, hp]
      · cases hp : paced f <;> cases ht : wk.tick <;>
          simp [step, hm, hget, workerStep, hpc, h, hc, workerReturn, hp, ht]
    · simp [isExited, hl]
  · rintro ⟨h1, h2, h3⟩
    simp [step, hm, hget, workerStep, hpc, h1, h2, h3, hc, workerTakeTick]

/-- In the paced run of `schedCancelled` the worker whose `select` takes the
cancellation exits at once. -/
theorem c6_top_of_iteration_cancelled_witness :
    stateCancelled.main ≠ .returned ∧
      stateCancelled.workers[0]? = some { pc := .top, tick := true } ∧
      stateCancelled.cancelled = true ∧
      ∃ s1, step (flagsPaced 1) stateCancelled (.worker 0 envDone) = some (s1, []) ∧
        s1.count = stateCancelled.count ∧ s1.statusCodes = stateCancelled.statusCodes ∧
        isExited s1 0 = true :=
  ⟨by decide, by decide, by decide,
    (c6_top_of_iteration_cancelled (flagsPaced 1) stateCancelled 0 { pc := .top, tick := true }
      envDone (by decide) (by decide) rfl (by decide)).1 (Or.inr (Or.inr rfl))⟩


/-! ## C7 -/

theorem step_keeps_cancelled {f : Flags} {s s1 : State} {ev : List Event}
    (hs : Step f s s1 ev) (hc : s.cancelled = true) : s1.cancelled = true := by
  cases hs with
  | worker w0 wk s2 wk1 ev hget hw => cases hw <;> exact hc
  | tickFire w0 wk hp hget hpc0 => exact hc
  | spawn i hi hlt => exact hc
  | interrupt => exact hc
  | progress h1 ht => exact hc
  | reporterTick h1 => exact hc
  | handler hsig hh => rfl
  | spawned i hi hlt => exact hc
  | observed h1 h2 => exact hc
  | drained h1 hw => exact hc
  | total h1 => exact hc
  | hist h1 => rfl

/-- C7: `cancel` applied twice gives the state `cancel` applied once gives, and
that state has the signal set; once the signal is set it is set after every
step of the signal goroutine, of `main` (the deferred `cancel` at exit
included), of a worker, of a ticker and of a further interrupt, hence after
every schedule; and the signal goroutine triggers at most once. -/
theorem c7_cancel_idempotent_irreversible :
    (∀ s : State, cancel (cancel s) = cancel s) ∧
      (∀ s : State, (cancel s).cancelled = true) ∧
      (∀ (f : Flags) (s : State) (a : Action) (s1 : State) (ev : List Event),
        step f s a = some (s1, ev) → s.cancelled = true → s1.cancelled = true) ∧
      (∀ (f : Flags) (as : List Action) (s s1 : State) (evs : List Event),
        run f s as = some (s1, evs) → s.cancelled = true → s1.cancelled = true) ∧
      (∀ (f : Flags) (s s1 : State) (ev : List Event),
        step f s .handler = some (s1, ev) →
          s1 = { cancel s with sigs := false, handled := true } ∧
            step f s1 .handler = none) := by
  refine ⟨fun _ => rfl, fun _ => rfl, ?_, ?_, ?_⟩
  · intro f s a s1 ev h hc
    exact step_keeps_cancelled (step_sound h).2 hc
  · intro f as s s1 evs h hc
    exact run_keeps (f := f) (fun t => t.cancelled = true)
      (fun _ _ _ hP hs => step_keeps_cancelled hs hP) as s s1 evs hc h
  · intro f s s1 ev h
    unfold step at h
    split at h
    · simp at h
    · simp only at h
      split at h
      · simp only [Option.some.injEq, Prod.mk.injEq] at h
        obtain ⟨rfl, rfl⟩ := h
        refine ⟨rfl, ?_⟩
        simp [step]
      · simp at h

/-- A further interrupt after the shutdown leaves the signal set. -/
theorem c7_cancel_idempotent_irreversible_witness :
    step (flagsUnpaced 1) stateCancelled .interrupt
        = some ({ stateCancelled with sigs := true }, [.signal]) ∧
      stateCancelled.cancelled = true ∧
      ({ stateCancelled with sigs := true } : State).cancelled = true :=
  ⟨by decide, by decide,
    c7_cancel_idempotent_irreversible.2.2.1 (flagsUnpaced 1) stateCancelled .interrupt
      { stateCancelled with sigs := true } [.signal] (by decide) (by decide)⟩

/-! ## C10 -/

/-- C10: with a positive interval a worker gets past the top of its loop only
by receiving a tick from its own ticker, so in every reachable state the
attempts worker `w` has made, plus one when it holds a tick it has not yet
used for an attempt, are the ticks it has received; hence attempts are at most
ticks received and ticks received are at most the times its ticker fired.
With the interval zero or negative the worker receives no tick and none of its
steps is ever blocked. -/
theorem c10_pacing (f : Flags) (as : List Action) (s : State) (evs : List Event)
    (h : run f initState as = some (s, evs)) (w : Nat) :
    (paced f = true ↔ 0 < f.interval) ∧
      (paced f = true →
        attempts w evs + (if atBuild s.workers w then 1 else 0) = ticksTaken w evs ∧
          attempts w evs ≤ ticksTaken w evs ∧ ticksTaken w evs ≤ ticksFired w evs) ∧
      (paced f = false →
        ticksTaken w evs = 0 ∧
          ∀ (wk : Worker) (e : Env), wk.pc ≠ .exited →
            (workerStep f w s wk e).isSome = true) := by
  have ht := ticks_run h
  refine ⟨by simp [paced], ?_, ?_⟩
  · intro hp
    have h1 := ht.taken w hp
    have h2 := ht.fired w
    refine ⟨h1, by omega, by omega⟩
  · intro hp
    refine ⟨ht.untimed w hp, ?_⟩
    intro wk e hpc
    unfold workerStep
    cases hq : wk.pc with
    | exited => exact absurd hq hpc
    | top => cases hc : s.cancelled <;> simp [hp, hc]
    | build => cases hb : e.buildOk <;> simp [hb]
    | send => cases hr : e.resp <;> simp
    | record c => simp
    | count => simp

/-- One tick fired, one tick received, one attempt made. -/
theorem c10_pacing_witness :
    run (flagsPaced 1) initState schedPaced
        = some (statePaced, [.fired 0, .tick 0, .newRequest 0]) ∧
      paced (flagsPaced 1) = true ∧
      (attempts 0 [Event.fired 0, .tick 0, .newRequest 0]
            + (if atBuild statePaced.workers 0 then 1 else 0)
          = ticksTaken 0 [Event.fired 0, .tick 0, .newRequest 0] ∧
        attempts 0 [Event.fired 0, .tick 0, .newRequest 0]
          ≤ ticksTaken 0 [Event.fired 0, .tick 0, .newRequest 0] ∧
        ticksTaken 0 [Event.fired 0, .tick 0, .newRequest 0]
          ≤ ticksFired 0 [Event.fired 0, .tick 0, .newRequest 0]) :=
  ⟨by decide, by decide,
    (c10_pacing (flagsPaced 1) schedPaced statePaced [.fired 0, .tick 0, .newRequest 0]
      (by decide) 0).2.1 (by decide)⟩


/-! ## Every run can be brought to its end -/

theorem Reaches.refl (f : Flags) (s : State) : Reaches f s s := ⟨[], [], rfl⟩

theorem Reaches.trans {f : Flags} {s s1 s2 : State} (h1 : Reaches f s s1)
    (h2 : Reaches f s1 s2) : Reaches f s s2 := by
  obtain ⟨as, e1, r1⟩ := h1
  obtain ⟨bs, e2, r2⟩ := h2
  exact ⟨as ++ bs, e1 ++ e2, run_append f as bs s s1 s2 e1 e2 r1 r2⟩

theorem Reaches.of_step {f : Flags} {s s1 : State} (a : Action) (ev : List Event)
    (h : step f s a = some (s1, ev)) : Reaches f s s1 :=
  ⟨[a], ev ++ [], by simp only [run, h]⟩

theorem Reaches.core {f : Flags} {s : State} (h : Reaches f initState s) :
    ∃ evs, Core f s evs := by
  obtain ⟨as, evs, r⟩ := h
  exact ⟨evs, core_run r⟩

/-- The worker step from a control point other than the top and the exit,
under `envStop`. -/
theorem worker_advance (f : Flags) (s : State) (w : Nat) (wk : Worker)
    (hm : s.main ≠ .returned) (hget : s.workers[w]? = some wk) (hpc : wk.pc ≠ .exited)
    (htop : wk.pc ≠ .top) :
    ∃ s1 wk1, Reaches f s s1 ∧ s1.main = s.main ∧ s1.cancelled = s.cancelled ∧
      s1.workers = s.workers.set w wk1 ∧ (wk1.pc = .top ∨ wk1.pc = .count) ∧
      (wk.pc = .count → wk1.pc = .top) := by
  cases hq : wk.pc with
  | exited => exact absurd hq hpc
  | top => exact absurd hq htop
  | build =>
    refine ⟨{ s with workers := s.workers.set w { wk with pc := .top } }, { wk with pc := .top },
      Reaches.of_step (.worker w envStop) [.newRequest w, .buildError w] ?_,
      rfl, rfl, rfl, Or.inl rfl, fun _ => rfl⟩
    simp [step, hm, hget, workerStep, hq, envStop]
  | send =>
    refine ⟨{ s with workers := s.workers.set w { wk with pc := .count } },
      { wk with pc := .count },
      Reaches.of_step (.worker w envStop) [.send w, .sendError w] ?_,
      rfl, rfl, rfl, Or.inr rfl, fun h => by simp at h⟩
    simp [step, hm, hget, workerStep, hq, envStop]
  | record c =>
    refine ⟨{ s with statusCodes := recordStatus s.statusCodes c,
                     workers := s.workers.set w { wk with pc := .count } },
      { wk with pc := .count },
      Reaches.of_step (.worker w envStop) [] ?_,
      rfl, rfl, rfl, Or.inr rfl, fun h => by simp at h⟩
    simp [step, hm, hget, workerStep, hq]
  | count =>
    refine ⟨{ s with count := s.count + 1, workers := s.workers.set w { wk with pc := .top } },
      { wk with pc := .top },
      Reaches.of_step (.worker w envStop) [] ?_,
      rfl, rfl, rfl, Or.inl rfl, fun _ => rfl⟩
    simp [step, hm, hget, workerStep, hq]

theorem get_set_self_of_get {ws : List Worker} {w : Nat} {wk : Worker} (wk1 : Worker)
    (h : ws[w]? = some wk) : (ws.set w wk1)[w]? = some wk1 := by
  have hl : w < ws.length := (List.getElem?_eq_some.1 h).1
  simp [hl]

theorem worker_to_top (f : Flags) (s : State) (w : Nat) (wk : Worker)
    (hm : s.main ≠ .returned) (hget : s.workers[w]? = some wk) (hpc : wk.pc ≠ .exited) :
    ∃ s1 wk1, Reaches f s s1 ∧ s1.main = s.main ∧ s1.cancelled = s.cancelled ∧
      s1.workers[w]? = some wk1 ∧ wk1.pc = .top ∧ live s1.workers = live s.workers := by
  by_cases htop : wk.pc = .top
  · exact ⟨s, wk, Reaches.refl f s, rfl, rfl, hget, htop, rfl⟩
  · obtain ⟨s1, wk1, r1, m1, c1, w1, p1, _⟩ := worker_advance f s w wk hm hget hpc htop
    have g1 : s1.workers[w]? = some wk1 := by rw [w1]; exact get_set_self_of_get wk1 hget
    have k1 : wk1.pc ≠ .exited := by rcases p1 with h | h <;> simp [h]
    have l1 : live s1.workers = live s.workers := by
      rw [w1]; exact live_set_keep wk1 hget hpc k1
    rcases p1 with p1 | p1
    · exact ⟨s1, wk1, r1, m1, c1, g1, p1, l1⟩
    · obtain ⟨s2, wk2, r2, m2, c2, w2, _, q2⟩ :=
        worker_advance f s1 w wk1 (by rw [m1]; exact hm) g1 k1 (by simp [p1])
      have p2 := q2 p1
      refine ⟨s2, wk2, r1.trans r2, by rw [m2, m1], by rw [c2, c1], ?_, p2, ?_⟩
      · rw [w2]; exact get_set_self_of_get wk2 g1
      · rw [w2, live_set_keep wk2 g1 k1 (by simp [p2]), l1]

theorem worker_leave (f : Flags) (s : State) (w : Nat) (wk : Worker)
    (hm : s.main ≠ .returned) (hget : s.workers[w]? = some wk) (hpc : wk.pc = .top)
    (hc : s.cancelled = true) :
    ∃ s1, Reaches f s s1 ∧ s1.main = s.main ∧ s1.cancelled = true ∧
      live s1.workers + 1 = live s.workers := by
  refine ⟨{ s with wg := s.wg - 1, workers := s.workers.set w { wk with pc := .exited } },
    Reaches.of_step (.worker w envStop) [] ?_, rfl, hc, ?_⟩
  · cases hp : paced f <;> cases ht : wk.tick <;>
      simp [step, hm, hget, workerStep, hpc, hc, workerReturn, hp, ht, envStop]
  · exact live_set_leave { wk with pc := .exited } hget (by simp [hpc]) rfl

/-- With the context cancelled every worker can be brought to its exit. -/
theorem drain_all (f : Flags) :
    ∀ (n : Nat) (s : State), live s.workers = n → s.main ≠ .returned → s.cancelled = true →
      ∃ s1, Reaches f s s1 ∧ s1.main = s.main ∧ s1.cancelled = true ∧ live s1.workers = 0 := by
  intro n
  induction n with
  | zero => intro s hl _ hc; exact ⟨s, Reaches.refl f s, rfl, hc, hl⟩
  | succ n ih =>
    intro s hl hm hc
    have hpos : 0 < live s.workers := by omega
    simp only [live, List.countP_pos_iff] at hpos
    obtain ⟨wk, hmem, hpc⟩ := hpos
    obtain ⟨w, hget⟩ := List.mem_iff_getElem?.1 hmem
    have hpc : wk.pc ≠ .exited := by simpa using hpc
    obtain ⟨s1, wk1, r1, m1, c1, g1, p1, l1⟩ := worker_to_top f s w wk hm hget hpc
    obtain ⟨s2, r2, m2, c2, l2⟩ :=
      worker_leave f s1 w wk1 (by rw [m1]; exact hm) g1 p1 (by rw [c1]; exact hc)
    obtain ⟨s3, r3, m3, c3, l3⟩ :=
      ih s2 (by omega) (by rw [m2, m1]; exact hm) c2
    exact ⟨s3, (r1.trans r2).trans r3, by rw [m3, m2, m1], c3, l3⟩

/-- The signal goroutine has run exactly when the context is cancelled, as
long as `main` has not returned. -/
theorem handled_step {f : Flags} {s s1 : State} {ev : List Event}
    (hP : s.handled = true → s.cancelled = true) (hs : Step f s s1 ev) :
    s1.handled = true → s1.cancelled = true := by
  cases hs with
  | worker w0 wk s2 wk1 ev hget hw => cases hw <;> exact hP
  | tickFire w0 wk hp hget hpc0 => exact hP
  | spawn i hi hlt => exact hP
  | interrupt => exact hP
  | progress h1 ht => exact hP
  | reporterTick h1 => exact hP
  | handler hsig hh => exact fun _ => rfl
  | spawned i hi hlt => exact hP
  | observed h1 h2 => exact hP
  | drained h1 hw => exact hP
  | total h1 => exact hP
  | hist h1 => exact fun _ => rfl

theorem make_cancelled (f : Flags) (s : State) (hm : s.main ≠ .returned)
    (hh : s.handled = true → s.cancelled = true) :
    ∃ s1, Reaches f s s1 ∧ s1.main = s.main ∧ s1.cancelled = true := by
  cases hc : s.cancelled with
  | true => exact ⟨s, Reaches.refl f s, rfl, hc⟩
  | false =>
    have hh0 : s.handled = false := by
      cases h : s.handled with
      | false => rfl
      | true => rw [hh h] at hc; exact absurd hc (by simp)
    have r1 : Reaches f s { s with sigs := true } :=
      Reaches.of_step .interrupt [.signal] (by simp [step, hm])
    have r2 : Reaches f { s with sigs := true }
        { cancel { s with sigs := true } with sigs := false, handled := true } :=
      Reaches.of_step .handler [.shutdownMsg] (by simp [step, hm, hh0])
    exact ⟨_, r1.trans r2, rfl, rfl⟩

theorem finish_spawn (f : Flags) (s : State) (i : Nat) (hm : s.main = .spawn i) :
    ∃ s1, Reaches f s s1 ∧ s1.main = .poll := by
  have h1 := spawn_run f env0 (f.workers - i).toNat s i hm (by
    by_cases h : f.workers - i ≤ 0
    · left; exact Int.toNat_eq_zero.2 h
    · right
      have := Int.toNat_of_nonneg (a := f.workers - i) (by omega)
      push_cast
      omega)
  have hk : ¬ (((i + (f.workers - i).toNat : Nat) : Int) < f.workers) := by
    have := Int.self_le_toNat (f.workers - i)
    push_cast
    omega
  generalize (f.workers - i).toNat = k at h1 hk
  have h2 : step f (afterSpawns s i k) (.main env0) =
      some ({ afterSpawns s i k with main := .poll }, []) := by
    push_cast at hk
    simp [step, mainStep, afterSpawns]
    omega
  exact ⟨_, Reaches.trans ⟨_, _, h1⟩ (Reaches.of_step _ _ h2), rfl⟩

theorem finish_main (f : Flags) (s : State) (hs : ∀ i, s.main ≠ .spawn i)
    (hc : s.cancelled = true) (hw : s.wg = 0) :
    ∃ s1, Reaches f s s1 ∧ s1.main = .returned := by
  have fromTotal : ∀ t : State, t.main = .total →
      ∃ s1, Reaches f t s1 ∧ s1.main = .returned := by
    intro t ht
    have r1 : Reaches f t { t with main := .hist } :=
      Reaches.of_step (.main envStop) [.finalTotal t.count] (by simp [step, mainStep, ht])
    have r2 : Reaches f { t with main := .hist }
        { cancel { t with main := .hist } with main := .returned } :=
      Reaches.of_step (.main envStop) [.finalHist t.statusCodes] (by simp [step, mainStep])
    exact ⟨_, r1.trans r2, rfl⟩
  have fromWait : ∀ t : State, t.main = .wait → t.wg = 0 →
      ∃ s1, Reaches f t s1 ∧ s1.main = .returned := by
    intro t ht hw
    have r1 : Reaches f t { t with main := .total } :=
      Reaches.of_step (.main envStop) [] (by simp [step, mainStep, ht, hw])
    obtain ⟨s1, r2, m⟩ := fromTotal { t with main := .total } rfl
    exact ⟨s1, r1.trans r2, m⟩
  cases hmain : s.main with
  | spawn i => exact absurd hmain (hs i)
  | returned => exact ⟨s, Reaches.refl f s, hmain⟩
  | total => exact fromTotal s hmain
  | wait => exact fromWait s hmain hw
  | hist =>
    exact ⟨{ cancel s with main := .returned },
      Reaches.of_step (.main envStop) [.finalHist s.statusCodes] (by simp [step, mainStep, hmain]),
      rfl⟩
  | poll =>
    have r1 : Reaches f s { s with main := .wait } := by
      cases ht : s.ticker <;>
        exact Reaches.of_step (.main envStop) [] (by simp [step, mainStep, hmain, hc, ht, envStop])
    obtain ⟨s1, r2, m⟩ := fromWait { s with main := .wait } rfl hw
    exact ⟨s1, r1.trans r2, m⟩

/-- From every reachable state some schedule brings `main` to its return. -/
theorem can_finish (f : Flags) (s : State) (h : Reaches f initState s) :
    ∃ s1, Reaches f s s1 ∧ s1.main = .returned := by
  by_cases hret : s.main = .returned
  · exact ⟨s, Reaches.refl f s, hret⟩
  -- leave the spawn loop
  have h1 : ∃ s1, Reaches f s s1 ∧ s1.main ≠ .returned ∧ ∀ i, s1.main ≠ .spawn i := by
    cases hmain : s.main with
    | spawn i =>
      obtain ⟨s1, r, m⟩ := finish_spawn f s i hmain
      exact ⟨s1, r, by simp [m], by simp [m]⟩
    | returned => exact absurd hmain hret
    | poll => exact ⟨s, Reaches.refl f s, by simp [hmain], by simp [hmain]⟩
    | wait => exact ⟨s, Reaches.refl f s, by simp [hmain], by simp [hmain]⟩
    | total => exact ⟨s, Reaches.refl f s, by simp [hmain], by simp [hmain]⟩
    | hist => exact ⟨s, Reaches.refl f s, by simp [hmain], by simp [hmain]⟩
  obtain ⟨s1, r1, n1, p1⟩ := h1
  -- cancel
  have hh1 : s1.handled = true → s1.cancelled = true := by
    obtain ⟨as, evs, r⟩ := h.trans r1
    exact run_keeps (f := f) (fun t => t.handled = true → t.cancelled = true)
      (fun _ _ _ hP hs => handled_step hP hs) as initState s1 evs (by simp [initState]) r
  obtain ⟨s2, r2, m2, c2⟩ := make_cancelled f s1 n1 hh1
  -- let the workers leave
  obtain ⟨s3, r3, m3, c3, l3⟩ := drain_all f _ s2 rfl (by rw [m2]; exact n1) c2
  -- the report
  obtain ⟨evs, hc⟩ := (((h.trans r1).trans r2).trans r3).core
  have hw : s3.wg = 0 := by rw [hc.wgLive, l3]; rfl
  obtain ⟨s4, r4, m4⟩ := finish_main f s3 (by rw [m3, m2]; exact p1) c3 hw
  exact ⟨s4, ((r1.trans r2).trans r3).trans r4, m4⟩


/-! ## C5 -/

theorem not_running_of_live_zero {s : State} (h : live s.workers = 0) (w : Nat) :
    isRunning s w = false := by
  unfold isRunning
  split
  · rename_i x hx
    have := live_zero_iff.1 h w x hx
    simp [this]
  · rfl

/-- C5: in every reachable state each part of the final report has been
printed at most once, and exactly once when `main` has returned; whenever
`main` is past `wg.Wait()` (about to read the counter, about to read the
histogram, or returned) all the workers of the run have been started and none
of them is running; what has been printed as final total and as final
distribution is what the counter and the histogram hold; from a state in
which `main` is past `wg.Wait()` no schedule changes the counter or the
histogram; and every reachable state has a continuation in which `main`
returns, with each part of the report printed exactly once in the whole run. -/
theorem c5_final_report (f : Flags) (as : List Action) (s : State) (evs : List Event)
    (h : run f initState as = some (s, evs)) :
    totalsPrinted evs ≤ 1 ∧ histsPrinted evs ≤ 1 ∧
      (s.main = .returned → totalsPrinted evs = 1 ∧ histsPrinted evs = 1) ∧
      (s.main = .total ∨ s.main = .hist ∨ s.main = .returned →
        (s.workers.length : Int) = max f.workers 0 ∧ ∀ w, isRunning s w = false) ∧
      (∀ n, Event.finalTotal n ∈ evs → n = s.count) ∧
      (∀ x, Event.finalHist x ∈ evs → x = s.statusCodes) ∧
      (s.main = .total ∨ s.main = .hist ∨ s.main = .returned →
        ∀ (bs : List Action) (s2 : State) (evs2 : List Event),
          run f s bs = some (s2, evs2) →
            s2.count = s.count ∧ s2.statusCodes = s.statusCodes) ∧
      (∃ (bs : List Action) (s2 : State) (evs2 : List Event),
        run f s bs = some (s2, evs2) ∧ s2.main = .returned ∧
          totalsPrinted (evs ++ evs2) = 1 ∧ histsPrinted (evs ++ evs2) = 1) := by
  obtain ⟨hc, hr⟩ := report_run h
  have hns : s.main = .total ∨ s.main = .hist ∨ s.main = .returned → ∀ i, s.main ≠ .spawn i := by
    intro hm i hi
    rw [hi] at hm
    simp at hm
  refine ⟨?_, ?_, ?_, ?_, hr.totalVal, hr.histVal, ?_, ?_⟩
  · rw [hr.totals]; split <;> omega
  · rw [hr.hists]; split <;> omega
  · intro hm
    rw [hr.totals, hr.hists]
    simp [hm]
  · intro hm
    exact ⟨hc.lenEq (hns hm), not_running_of_live_zero (hc.drained hm)⟩
  · intro hm bs s2 evs2 h2
    have := run_drained (hc.drained hm) (hns hm) h2
    exact ⟨this.1, this.2.1⟩
  · obtain ⟨s2, ⟨bs, evs2, r2⟩, m2⟩ := can_finish f s ⟨as, evs, h⟩
    have hr2 := (report_run (run_append f as bs initState s s2 evs evs2 h r2)).2
    refine ⟨bs, s2, evs2, r2, m2, ?_, ?_⟩
    · rw [hr2.totals]; simp [m2]
    · rw [hr2.hists]; simp [m2]

/-- A whole run of one worker: each part of the report is printed once, with
the final values. -/
theorem c5_final_report_witness :
    run (flagsUnpaced 1) initState schedFull = some (stateFull, eventsFull) ∧
      totalsPrinted eventsFull = 1 ∧ histsPrinted eventsFull = 1 ∧
      (totalsPrinted eventsFull ≤ 1 ∧ histsPrinted eventsFull ≤ 1 ∧
        (stateFull.main = .returned → totalsPrinted eventsFull = 1 ∧ histsPrinted eventsFull = 1) ∧
        (stateFull.main = .total ∨ stateFull.main = .hist ∨ stateFull.main = .returned →
          (stateFull.workers.length : Int) = max (flagsUnpaced 1).workers 0 ∧
            ∀ w, isRunning stateFull w = false) ∧
        (∀ n, Event.finalTotal n ∈ eventsFull → n = stateFull.count) ∧
        (∀ x, Event.finalHist x ∈ eventsFull → x = stateFull.statusCodes) ∧
        (stateFull.main = .total ∨ stateFull.main = .hist ∨ stateFull.main = .returned →
          ∀ (bs : List Action) (s2 : State) (evs2 : List Event),
            run (flagsUnpaced 1) stateFull bs = some (s2, evs2) →
              s2.count = stateFull.count ∧ s2.statusCodes = stateFull.statusCodes) ∧
        (∃ (bs : List Action) (s2 : State) (evs2 : List Event),
          run (flagsUnpaced 1) stateFull bs = some (s2, evs2) ∧ s2.main = .returned ∧
            totalsPrinted (eventsFull ++ evs2) = 1 ∧ histsPrinted (eventsFull ++ evs2) = 1)) :=
  ⟨by decide, by decide, by decide,
    c5_final_report (flagsUnpaced 1) schedFull stateFull eventsFull (by decide)⟩


/-! ## C9 -/

/-- C9: start-up leaves with code 1, before the run state with its workers
exists, exactly when the API key is empty or the prompt file cannot be read,
and it never leaves with another code; otherwise the run begins in
`initState`, the spawn loop of `main` starts all `workers` workers, in every
reachable state past the spawn loop that many workers have been started, and
the process has an exit code only when `main` has returned from the reporter
loop, which is code 0 and happens only after an interrupt was delivered and
the signal goroutine announced the shutdown; and every reachable state has a
continuation that ends with code 0. -/
theorem c9_exit_codes (f : Flags) (readFile : String → Except String String) :
    ((∃ out, start f readFile = .exited 1 out) ↔
        (f.apiKey = "" ∨ ∃ err, readFile f.promptFile = .error err)) ∧
      (∀ code out, start f readFile = .exited code out → code = 1) ∧
      (¬ (f.apiKey = "" ∨ ∃ err, readFile f.promptFile = .error err) →
        ∃ p, start f readFile = .running p initState) ∧
      initState.workers = [] ∧
      run f initState (List.replicate (f.workers.toNat + 1) (.main env0))
        = some (allStarted f, []) ∧
      (allStarted f).workers = List.replicate f.workers.toNat { pc := .top, tick := false } ∧
      (∀ (as : List Action) (s : State) (evs : List Event),
        run f initState as = some (s, evs) →
          ((∀ i, s.main ≠ .spawn i) → (s.workers.length : Int) = max f.workers 0) ∧
          (∀ code, exitCode s = some code →
            code = 0 ∧ s.main = .returned ∧ Event.signal ∈ evs ∧ Event.shutdownMsg ∈ evs) ∧
          (∃ (bs : List Action) (s2 : State) (evs2 : List Event),
            run f s bs = some (s2, evs2) ∧ exitCode s2 = some 0)) := by
  refine ⟨?_, ?_, ?_, rfl, start_all f env0, rfl, ?_⟩
  · unfold start
    constructor
    · rintro ⟨out, h⟩
      split at h
      · left; assumption
      · right
        split at h
        · rename_i err he
          exact ⟨err, he⟩
        · simp at h
    · rintro (h | ⟨err, he⟩)
      · exact ⟨_, by rw [if_pos h]⟩
      · by_cases hk : f.apiKey = ""
        · exact ⟨_, by rw [if_pos hk]⟩
        · exact ⟨_, by rw [if_neg hk, he]⟩
  · intro code out h
    unfold start at h
    split at h
    · simp only [Proc.exited.injEq] at h
      exact h.1.symm
    · split at h
      · simp only [Proc.exited.injEq] at h
        exact h.1.symm
      · simp at h
  · intro hno
    unfold start
    have hk : ¬ f.apiKey = "" := fun h => hno (Or.inl h)
    rw [if_neg hk]
    cases hr : readFile f.promptFile with
    | error err => exact absurd (Or.inr ⟨err, hr⟩) hno
    | ok bytes => exact ⟨_, rfl⟩
  · intro as s evs h
    have hc := core_run h
    refine ⟨hc.lenEq, ?_, ?_⟩
    · intro code hcode
      unfold exitCode at hcode
      split at hcode
      · rename_i hm
        simp only [Option.some.injEq] at hcode
        have h1 := hc.seen (Or.inr (Or.inr (Or.inr hm)))
        have h2 := hc.byHandler h1
        exact ⟨hcode.symm, hm, hc.bySignal (Or.inr h2), hc.announced h2⟩
      · simp at hcode
    · obtain ⟨s2, ⟨bs, evs2, r2⟩, m2⟩ := can_finish f s ⟨as, evs, h⟩
      exact ⟨bs, s2, evs2, r2, by simp [exitCode, m2]⟩

/-- An empty key and an unreadable prompt file both end start-up with code 1; a
good configuration runs, and the whole run `schedFull` ends with code 0 after
the interrupt. -/
theorem c9_exit_codes_witness :
    (∃ out, start { flagsUnpaced 1 with apiKey := "" } readOk = .exited 1 out) ∧
      (∃ out, start (flagsUnpaced 1) readFails = .exited 1 out) ∧
      (∃ p, start (flagsUnpaced 1) readOk = .running p initState) ∧
      run (flagsUnpaced 1) initState schedFull = some (stateFull, eventsFull) ∧
      exitCode stateFull = some 0 ∧
      (0 = 0 ∧ stateFull.main = .returned ∧ Event.signal ∈ eventsFull ∧
        Event.shutdownMsg ∈ eventsFull) :=
  ⟨(c9_exit_codes { flagsUnpaced 1 with apiKey := "" } readOk).1.2 (Or.inl rfl),
    (c9_exit_codes (flagsUnpaced 1) readFails).1.2 (Or.inr ⟨"no such file", rfl⟩),
    (c9_exit_codes (flagsUnpaced 1) readOk).2.2.1 (by
      rintro (h | ⟨err, h⟩)
      · exact absurd h (by decide)
      · simp [readOk] at h),
    by decide, by decide,
    ((c9_exit_codes (flagsUnpaced 1) readOk).2.2.2.2.2.2 schedFull stateFull eventsFull
      (by decide)).2.1 0 (by decide)⟩

end LoadGen
